import Mathlib

/-!
Shallow embedding of the core of the visiting-card extraction service:
`extract_info.py` (response parsing and normalization), `merge_info.py`
(two-record merging), the relevant helpers of `info_utils.py`
(`has_content`) and the post-extraction steps of `app.py`
(`is_empty_extraction`, the warning attachment and the `info_id` /
`event_id` injection of `process_extraction_request`).

Python values that can appear in the pipeline (outputs of `json.loads`
and values produced by the code) are modelled by `PyVal`.  JSON floats
are carried as their source lexeme; no claim exercises float arithmetic.
Strings are modelled through their character lists, with Python's
`str.strip`, `str.lower` and the `in` substring test re-implemented
character-wise (ASCII case folding, ASCII whitespace), so that every
definition evaluates by kernel reduction.
-/

namespace Card

/-- A Python value as it can occur in the extraction pipeline:
the possible results of `json.loads` (with objects as association
lists whose later duplicate keys have already overwritten earlier
ones, as `json.loads` does). -/
inductive PyVal where
  | none : PyVal
  | bool : Bool → PyVal
  | int : Int → PyVal
  | float : String → PyVal
  | str : String → PyVal
  | list : List PyVal → PyVal
  | dict : List (String × PyVal) → PyVal

/-- A Python `dict` with string keys, as used for records. -/
abbrev Dict := List (String × PyVal)

/-- Errors the modelled code can raise: `json.JSONDecodeError` from
`json.loads`, and the dynamic `TypeError` / `AttributeError` that
Python raises when an operation meets a value of the wrong type. -/
inductive PyErr where
  | jsonDecodeError : PyErr
  | typeError : PyErr
  | attributeError : PyErr
deriving DecidableEq

/-- Python whitespace as stripped by `str.strip()` (ASCII fragment). -/
def isPySpace (c : Char) : Bool :=
  c = ' ' ∨ c = '\t' ∨ c = '\n' ∨ c = '\r' ∨ c = '\x0b' ∨ c = '\x0c'

/-- Strip a character list on both ends, like Python `str.strip()`. -/
def stripList (l : List Char) : List Char :=
  ((l.dropWhile isPySpace).reverse.dropWhile isPySpace).reverse

/-- Python `str.strip()`. -/
def pyStrip (s : String) : String :=
  ⟨stripList s.data⟩

/-- ASCII lower-casing of one character, like Python `str.lower()`
restricted to ASCII. -/
def pyLowerChar (c : Char) : Char :=
  if h : 'A' ≤ c ∧ c ≤ 'Z' then
    Char.ofNatAux (c.toNat + 32) (by
      rcases h with ⟨_, h2⟩
      have h3 : c.val ≤ ('Z').val := h2
      rw [UInt32.le_def, BitVec.le_def] at h3
      have hz : ('Z').val.toBitVec.toNat = 90 := rfl
      have h4 : c.toNat ≤ 90 := by
        show c.val.toBitVec.toNat ≤ 90
        omega
      left
      omega)
  else c

/-- Python `str.lower()` (ASCII fragment). -/
def pyLower (s : String) : String :=
  ⟨s.data.map pyLowerChar⟩

/-- Does `needle` occur inside `hay` (list form)?  Python `in` on `str`. -/
def infixCheck (needle : List Char) : List Char → Bool
  | [] => needle.isPrefixOf []
  | c :: rest => needle.isPrefixOf (c :: rest) || infixCheck needle rest

/-- Python substring test `needle in hay`. -/
def pyIn (needle hay : String) : Bool :=
  infixCheck needle.data hay.data

/-- Python truthiness of a value. -/
def truthy : PyVal → Bool
  | .none => false
  | .bool b => b
  | .int n => n ≠ 0
  | .float lex => lex.data.any (fun c => '1' ≤ c ∧ c ≤ '9') || lex = "nan"
      || lex = "inf" || lex = "-inf"
  | .str s => s ≠ ""
  | .list xs => ¬ xs.isEmpty
  | .dict xs => ¬ xs.isEmpty

/-- The apostrophe character, used by `pyRepr` for string quoting. -/
def sq : String := String.mk [Char.ofNat 39]

/-- Comma-join, as Python `", ".join`. -/
def joinComma : List String → String
  | [] => ""
  | [s] => s
  | s :: rest => s ++ ", " ++ joinComma rest

mutual

/-- Python `repr` of a value (approximation: string escaping inside
nested `repr` is not modelled; floats print their lexeme). -/
def pyRepr : PyVal → String
  | .none => "None"
  | .bool true => "True"
  | .bool false => "False"
  | .int n => toString n
  | .float lex => lex
  | .str s => sq ++ s ++ sq
  | .list xs => "[" ++ joinComma (pyReprList xs) ++ "]"
  | .dict xs => String.mk ['\x7b'] ++ joinComma (pyReprDict xs) ++ String.mk ['\x7d']

/-- `repr` of each element of a list. -/
def pyReprList : List PyVal → List String
  | [] => []
  | v :: vs => pyRepr v :: pyReprList vs

/-- `repr` of each entry of a dict. -/
def pyReprDict : List (String × PyVal) → List String
  | [] => []
  | (k, v) :: kvs => (sq ++ k ++ sq ++ ": " ++ pyRepr v) :: pyReprDict kvs

end

/-- Python `str(value)`: the identity on strings, `repr`-like otherwise. -/
def pyStr : PyVal → String
  | .str s => s
  | v => pyRepr v

/-- Python `d.get(k)`: the value at the first occurrence of the key,
`None` when the key is absent. -/
def dGet : Dict → String → PyVal
  | [], _ => .none
  | (k', v) :: rest, k => if k' = k then v else dGet rest k

/-- Python `d[k] = v`: replace the value at the first occurrence of the
key, keeping its position, or append a fresh entry. -/
def dSet : Dict → String → PyVal → Dict
  | [], k, v => [(k, v)]
  | (k', v') :: rest, k, v =>
      if k' = k then (k', v) :: rest else (k', v') :: dSet rest k v

/-!
## A model of `json.loads`

Recursive-descent JSON parser over character lists, mirroring Python's
`json.loads` in strict mode: fenced whitespace is space/tab/LF/CR, raw
control characters inside strings are rejected, numbers follow the JSON
grammar (no leading zeros, no bare `.5`), `NaN` / `Infinity` /
`-Infinity` are accepted, later duplicate object keys overwrite earlier
ones.  Numbers without fraction or exponent become `PyVal.int`; others
keep their lexeme as `PyVal.float`.  Lone `\uXXXX` surrogates become
U+FFFD (Python keeps the lone surrogate; no claim depends on this). -/

/-- JSON whitespace accepted between tokens. -/
def isJsonWs (c : Char) : Bool :=
  c = ' ' ∨ c = '\t' ∨ c = '\n' ∨ c = '\r'

/-- Skip JSON whitespace. -/
def skipWs : List Char → List Char
  | [] => []
  | c :: r => if isJsonWs c then skipWs r else c :: r

/-- Hex digit value. -/
def hexVal? (c : Char) : Option Nat :=
  if '0' ≤ c ∧ c ≤ '9' then some (c.toNat - 48)
  else if 'a' ≤ c ∧ c ≤ 'f' then some (c.toNat - 87)
  else if 'A' ≤ c ∧ c ≤ 'F' then some (c.toNat - 55)
  else none

/-- Value of a 4-digit hex escape. -/
def hex4? (a b c d : Char) : Option Nat := do
  let va ← hexVal? a
  let vb ← hexVal? b
  let vc ← hexVal? c
  let vd ← hexVal? d
  pure (((va * 16 + vb) * 16 + vc) * 16 + vd)

/-- Turn a code point into a `Char`, using U+FFFD for invalid ones
(lone surrogates). -/
def charOfCodePoint (n : Nat) : Char :=
  if h : n.isValidChar then Char.ofNatAux n h else Char.ofNat 0xfffd

/-- Parse the body of a JSON string after the opening quote, returning
the decoded characters and the input after the closing quote. -/
def parseStrBody : Nat → List Char → Option (List Char × List Char)
  | 0, _ => Option.none
  | _, [] => Option.none
  | _ + 1, '"' :: r => some ([], r)
  | fuel + 1, '\\' :: e :: r =>
      match e, r with
      | 'u', a :: b :: c :: d :: r2 => do
          let n ← hex4? a b c d
          if 0xd800 ≤ n ∧ n ≤ 0xdbff then
            match r2 with
            | '\\' :: 'u' :: a2 :: b2 :: c2 :: d2 :: r3 => do
                let m ← hex4? a2 b2 c2 d2
                if 0xdc00 ≤ m ∧ m ≤ 0xdfff then
                  let combined := 0x10000 + (n - 0xd800) * 0x400 + (m - 0xdc00)
                  let (cs, rest) ← parseStrBody fuel r3
                  pure (charOfCodePoint combined :: cs, rest)
                else do
                  let (cs, rest) ← parseStrBody fuel r2
                  pure (charOfCodePoint n :: cs, rest)
            | _ => do
                let (cs, rest) ← parseStrBody fuel r2
                pure (charOfCodePoint n :: cs, rest)
          else do
            let (cs, rest) ← parseStrBody fuel r2
            pure (charOfCodePoint n :: cs, rest)
      | 'u', _ => Option.none
      | '"', _ => do
          let (cs, rest) ← parseStrBody fuel r
          pure ('"' :: cs, rest)
      | '\\', _ => do
          let (cs, rest) ← parseStrBody fuel r
          pure ('\\' :: cs, rest)
      | '/', _ => do
          let (cs, rest) ← parseStrBody fuel r
          pure ('/' :: cs, rest)
      | 'b', _ => do
          let (cs, rest) ← parseStrBody fuel r
          pure ('\x08' :: cs, rest)
      | 'f', _ => do
          let (cs, rest) ← parseStrBody fuel r
          pure ('\x0c' :: cs, rest)
      | 'n', _ => do
          let (cs, rest) ← parseStrBody fuel r
          pure ('\n' :: cs, rest)
      | 'r', _ => do
          let (cs, rest) ← parseStrBody fuel r
          pure ('\r' :: cs, rest)
      | 't', _ => do
          let (cs, rest) ← parseStrBody fuel r
          pure ('\t' :: cs, rest)
      | _, _ => Option.none
  | fuel + 1, c :: r =>
      if c.toNat < 0x20 then Option.none
      else do
        let (cs, rest) ← parseStrBody fuel r
        pure (c :: cs, rest)

/-- Digit test. -/
def isDigit (c : Char) : Bool := '0' ≤ c ∧ c ≤ '9'

/-- Numeric value of a digit string. -/
def digitsToNat (l : List Char) : Nat :=
  l.foldl (fun acc c => acc * 10 + (c.toNat - 48)) 0

/-- Parse a JSON number (after `NaN`/`Infinity` have been handled).
Integers become `PyVal.int`; numbers with a fraction or exponent keep
their lexeme as `PyVal.float`. -/
def parseNumber (l : List Char) : Option (PyVal × List Char) :=
  let signed : Bool × List Char :=
    match l with
    | '-' :: r => (true, r)
    | _ => (false, l)
  let neg := signed.1
  match signed.2 with
  | c :: r =>
      if _hc : c = '0' ∨ ('1' ≤ c ∧ c ≤ '9') then
        let ip : List Char × List Char :=
          if c = '0' then ([c], r)
          else (c :: r.takeWhile isDigit, r.dropWhile isDigit)
        let intPart := ip.1
        let fp : Option (List Char) × List Char :=
          match ip.2 with
          | '.' :: r2 =>
              match r2.takeWhile isDigit with
              | [] => (Option.none, '.' :: r2)
              | ds => (some ('.' :: ds), r2.dropWhile isDigit)
          | r2 => (Option.none, r2)
        match fp.1, ip.2 with
        | Option.none, '.' :: _ => Option.none
        | _fracPart, _ =>
            let ep : Option (List Char) × List Char :=
              match fp.2 with
              | e :: r3 =>
                  if e = 'e' ∨ e = 'E' then
                    let sgn : List Char × List Char :=
                      match r3 with
                      | s :: r4 => if s = '+' ∨ s = '-' then ([s], r4) else ([], r3)
                      | [] => ([], r3)
                    match sgn.2.takeWhile isDigit with
                    | [] => (Option.none, fp.2)
                    | ds => (some (e :: sgn.1 ++ ds), sgn.2.dropWhile isDigit)
                  else (Option.none, fp.2)
              | [] => (Option.none, fp.2)
            match fp.1, ep.1 with
            | Option.none, Option.none =>
                let v : Int := if neg then -(digitsToNat intPart : Int) else digitsToNat intPart
                some (.int v, ip.2)
            | fracPart, expPart =>
                let lex := (if neg then ['-'] else []) ++ intPart
                  ++ fracPart.getD [] ++ expPart.getD []
                some (.float ⟨lex⟩, ep.2)
      else Option.none
  | [] => Option.none

mutual

/-- Parse one JSON value, fuel-bounded. -/
def parseVal : Nat → List Char → Option (PyVal × List Char)
  | 0, _ => Option.none
  | fuel + 1, l =>
      match skipWs l with
      | [] => Option.none
      | c :: r =>
          if c = '"' then
            (parseStrBody (r.length + 1) r).map (fun p => (.str ⟨p.1⟩, p.2))
          else if c = '\x7b' then
            match skipWs r with
            | '\x7d' :: r2 => some (.dict [], r2)
            | r2 => parseMembers fuel r2 []
          else if c = '[' then
            match skipWs r with
            | ']' :: r2 => some (.list [], r2)
            | r2 => parseItems fuel r2 []
          else if ("true").data.isPrefixOf (c :: r) then
            some (.bool true, (c :: r).drop 4)
          else if ("false").data.isPrefixOf (c :: r) then
            some (.bool false, (c :: r).drop 5)
          else if ("null").data.isPrefixOf (c :: r) then
            some (.none, (c :: r).drop 4)
          else if ("NaN").data.isPrefixOf (c :: r) then
            some (.float "nan", (c :: r).drop 3)
          else if ("Infinity").data.isPrefixOf (c :: r) then
            some (.float "inf", (c :: r).drop 8)
          else if ("-Infinity").data.isPrefixOf (c :: r) then
            some (.float "-inf", (c :: r).drop 9)
          else
            parseNumber (c :: r)

/-- Parse the members of a JSON object (positioned at a key). -/
def parseMembers : Nat → List Char → Dict → Option (PyVal × List Char)
  | 0, _, _ => Option.none
  | fuel + 1, l, acc =>
      match skipWs l with
      | '"' :: r => do
          let (keyChars, r2) ← parseStrBody (r.length + 1) r
          match skipWs r2 with
          | ':' :: r3 => do
              let (v, r4) ← parseVal fuel r3
              let acc2 := dSet acc ⟨keyChars⟩ v
              match skipWs r4 with
              | ',' :: r5 => parseMembers fuel r5 acc2
              | '\x7d' :: r5 => some (.dict acc2, r5)
              | _ => Option.none
          | _ => Option.none
      | _ => Option.none

/-- Parse the items of a JSON array (positioned at a value). -/
def parseItems : Nat → List Char → List PyVal → Option (PyVal × List Char)
  | 0, _, _ => Option.none
  | fuel + 1, l, acc => do
      let (v, r) ← parseVal fuel l
      match skipWs r with
      | ',' :: r2 => parseItems fuel r2 (acc ++ [v])
      | ']' :: r2 => some (.list (acc ++ [v]), r2)
      | _ => Option.none

end

/-- Model of `json.loads`: parse one JSON document, requiring the whole
input to be consumed (up to trailing whitespace). -/
def jsonLoads (s : String) : Option PyVal :=
  match parseVal (2 * s.data.length + 4) s.data with
  | some (v, rest) => if skipWs rest = [] then some v else Option.none
  | Option.none => Option.none

/-!
## `extract_info.extract_information`

Direct transcription.  The multi-value normalization pattern repeated
per field (`[str(x).strip() for x in v if x]` for a list, `[v.strip()]`
for a string, nothing otherwise, all under a truthiness guard) is
`normList`.  The only statements in the function that can raise after a
successful JSON parse are the two uses of `company_quote` (`quote not
in first` needs a string left operand; `.strip()` needs a string), so
only the company block lives in `Except`.
-/

/-- The per-field list normalization of `extract_information` and
`merge_extracted_data`: truthy list elements stringified and stripped,
a bare string stripped into a singleton, anything else empty. -/
def normList (v : PyVal) : List String :=
  if truthy v then
    match v with
    | .list xs => (xs.filter truthy).map (fun x => pyStrip (pyStr x))
    | .str s => [pyStrip s]
    | _ => []
  else []

/-- `lst if lst else None`, with a Python string list re-wrapped. -/
def listOrNone (l : List String) : PyVal :=
  if l.isEmpty then .none else .list (l.map .str)

/-- The `company_name` / `company_quote` block of
`extract_information` (lines 16-38): returns the combined company-name
list.  Python raises `TypeError` on `q not in first` when the truthy
quote is not a string, and `AttributeError` on `q.strip()` likewise. -/
def companyBlock (d : Dict) : Except PyErr (List String) :=
  if truthy (dGet d "company_name") then
    match normList (dGet d "company_name") with
    | [] => pure []
    | f :: rest =>
        if truthy (dGet d "company_quote") then
          match dGet d "company_quote" with
          | .str q =>
              pure ((if pyIn q f then f else pyStrip (f ++ "\n" ++ q)) :: rest)
          | _ => throw .typeError
        else pure (f :: rest)
  else if truthy (dGet d "company_quote") then
    match dGet d "company_quote" with
    | .str q => pure [pyStrip q]
    | _ => throw .attributeError
  else pure []

/-- The `social_media_profiles` object built by `extract_information`
(lines 85-124): platforms are read from the TOP LEVEL of the record,
and an empty `other` becomes the empty list, not `None`. -/
def socialObj (d : Dict) : Dict :=
  [("facebook", listOrNone (normList (dGet d "facebook"))),
   ("instagram", listOrNone (normList (dGet d "instagram"))),
   ("linkedin", listOrNone (normList (dGet d "linkedin"))),
   ("twitter", listOrNone (normList (dGet d "twitter"))),
   ("youtube", listOrNone (normList (dGet d "youtube"))),
   ("other",
     match normList (dGet d "other") with
     | [] => .list []
     | l => .list (l.map .str))]

/-- The `category` normalization of `extract_information`
(lines 180-193): a truthy list keeps the stripped stringification of
its first truthy element (which may be empty), a truthy string is
stripped (empty collapsing to `None`), anything else becomes `None`. -/
def normCategory (v : PyVal) : PyVal :=
  if truthy v then
    match v with
    | .list xs =>
        match (xs.filter truthy).map (fun x => pyStrip (pyStr x)) with
        | [] => .none
        | h :: _ => .str h
    | .str s => if pyStrip s = "" then .none else .str (pyStrip s)
    | _ => .none
  else .none

/-- All field updates of `extract_information` after the company block,
threaded through the mutated record in source order. -/
def normRest (d : Dict) (cl : List String) : Dict :=
  let d1 := dSet d "company_name" (listOrNone cl)
  let d2 := dSet d1 "company_quote" .none
  let d3 := dSet d2 "person_name" (listOrNone (normList (dGet d2 "person_name")))
  let d4 := dSet d3 "contact_numbers" (listOrNone (normList (dGet d3 "contact_numbers")))
  let d5 := dSet d4 "social_media_profiles" (.dict (socialObj d4))
  let d6 := dSet d5 "address" (listOrNone (normList (dGet d5 "address")))
  let d7 := dSet d6 "services" (listOrNone (normList (dGet d6 "services")))
  let d8 := dSet d7 "website" (listOrNone (normList (dGet d7 "website")))
  dSet d8 "category" (normCategory (dGet d8 "category"))

/-- The normalization pass of `extract_information` on an
already-parsed top-level mapping (lines 16-195). -/
def extractFromDict (d : Dict) : Except PyErr Dict :=
  (companyBlock d).map (fun cl => normRest d cl)

/-- Suffix after the first occurrence of `sep`, when `sep` occurs. -/
def afterFirst (sep : List Char) : List Char → Option (List Char)
  | [] => Option.none
  | c :: rest =>
      if sep.isPrefixOf (c :: rest) then some ((c :: rest).drop sep.length)
      else afterFirst sep rest

/-- Prefix before the first occurrence of `sep` (everything if none). -/
def beforeFirst (sep : List Char) : List Char → List Char
  | [] => []
  | c :: rest =>
      if sep.isPrefixOf (c :: rest) then [] else c :: beforeFirst sep rest

/-- The fence-stripping of `extract_information` (lines 7-10):
`text.split("```json")[1].split("```")[0].strip()` equals the stripped
text between the end of the first ` ```json ` and the next ` ``` `;
likewise for the unlabeled variant. -/
def candidateText (t : String) : String :=
  if pyIn "```json" t then
    pyStrip ⟨beforeFirst ("```").data ((afterFirst ("```json").data t.data).getD [])⟩
  else if pyIn "```" t then
    pyStrip ⟨beforeFirst ("```").data ((afterFirst ("```").data t.data).getD [])⟩
  else t

/-- `extract_information(response_text)`: fence stripping, `json.loads`
(a failure is re-raised as `jsonDecodeError`), then field
normalization.  A successfully parsed non-mapping raises
`AttributeError` at the first `.get`. -/
def extract_information (t : String) : Except PyErr Dict :=
  match jsonLoads (candidateText t) with
  | Option.none => .error .jsonDecodeError
  | some (.dict d) => extractFromDict d
  | some _ => .error .attributeError

/-!
## `merge_info.merge_extracted_data`
-/

/-- Order-preserving dedup with a key function, keeping an entry when
its key is non-empty and unseen (`merge_extracted_data` lines 44-51 and
78-85, with `key = lower-then-strip`). -/
def dedupByKey (key : String → String) : List String → List String → List String
  | _, [] => []
  | seen, c :: cs =>
      let k := key c
      if k ≠ "" ∧ k ∉ seen then c :: dedupByKey key (k :: seen) cs
      else dedupByKey key seen cs

/-- The dedup loop over raw values (`merge_extracted_data` lines
127-132 and 152-157): a truthy entry has `.lower()` called on it, which
raises `AttributeError` unless it is a string. -/
def dedupPy : List String → List PyVal → Except PyErr (List PyVal)
  | _, [] => pure []
  | seen, x :: xs =>
      if truthy x then
        match x with
        | .str s =>
            if pyLower s ∈ seen then dedupPy seen xs
            else (dedupPy (pyLower s :: seen) xs).map (fun r => x :: r)
        | _ => throw .attributeError
      else dedupPy seen xs

/-- One side's company list in `merge_extracted_data` (lines 12-40):
normalize, then absorb that side's quote. -/
def mergeCompanySide (cn cq : PyVal) : Except PyErr (List String) :=
  if truthy cq then
    match normList cn with
    | f :: rest =>
        match cq with
        | .str q =>
            pure ((if pyIn q f then f else pyStrip (f ++ "\n" ++ q)) :: rest)
        | _ => throw .typeError
    | [] =>
        match cq with
        | .str q => pure [pyStrip q]
        | _ => throw .attributeError
  else pure (normList cn)

/-- The category merge (lines 94-110): first truthy side wins; a list
keeps its raw first element, a string is stripped (empty to `None`),
anything else leaves `None`. -/
def mergeCategory (c1 c2 : PyVal) : PyVal :=
  if truthy c1 then
    match c1 with
    | .list xs => match xs with | [] => .none | h :: _ => h
    | .str s => if pyStrip s = "" then .none else .str (pyStrip s)
    | _ => .none
  else if truthy c2 then
    match c2 with
    | .list xs => match xs with | [] => .none | h :: _ => h
    | .str s => if pyStrip s = "" then .none else .str (pyStrip s)
    | _ => .none
  else .none

/-- Collect one side's contribution to an array field (lines 115-125):
a truthy list contributes its elements, any other truthy value itself. -/
def collectField (v : PyVal) : List PyVal :=
  if truthy v then
    match v with
    | .list xs => xs
    | x => [x]
  else []

/-- Merge one array field: concatenate both sides and dedup. -/
def mergeArrays (v1 v2 : PyVal) : Except PyErr PyVal :=
  (dedupPy [] (collectField v1 ++ collectField v2)).map
    (fun u => if u.isEmpty then .none else .list u)

/-- `d.get('social_media_profiles', \x7b\x7d) or \x7b\x7d`. -/
def resolveSocial (v : PyVal) : PyVal :=
  if truthy v then v else .dict []

/-- `.get` on a social object: raises unless it is a dict. -/
def socialLookup (v : PyVal) (k : String) : Except PyErr PyVal :=
  match v with
  | .dict xs => pure (dGet xs k)
  | _ => throw .attributeError

/-- `social1.get(p) or social2.get(p) or None` (short-circuiting). -/
def mergePlatform (s1 s2 : PyVal) (p : String) : Except PyErr PyVal := do
  let v1 ← socialLookup s1 p
  if truthy v1 then pure v1
  else do
    let v2 ← socialLookup s2 p
    pure (if truthy v2 then v2 else .none)

/-- Python `list.extend(v)`: lists extend elementwise, strings extend
with their characters, dicts with their keys; other values raise. -/
def pyExtend (acc : List PyVal) (v : PyVal) : Except PyErr (List PyVal) :=
  match v with
  | .list xs => pure (acc ++ xs)
  | .str s => pure (acc ++ s.data.map (fun c => PyVal.str ⟨[c]⟩))
  | .dict xs => pure (acc ++ xs.map (fun kv => PyVal.str kv.1))
  | _ => throw .typeError

/-- The social-media merge of `merge_extracted_data` (lines 135-160). -/
def mergeSocial (d1 d2 : Dict) : Except PyErr PyVal := do
  let fb ← mergePlatform (resolveSocial (dGet d1 "social_media_profiles"))
    (resolveSocial (dGet d2 "social_media_profiles")) "facebook"
  let ig ← mergePlatform (resolveSocial (dGet d1 "social_media_profiles"))
    (resolveSocial (dGet d2 "social_media_profiles")) "instagram"
  let li ← mergePlatform (resolveSocial (dGet d1 "social_media_profiles"))
    (resolveSocial (dGet d2 "social_media_profiles")) "linkedin"
  let tw ← mergePlatform (resolveSocial (dGet d1 "social_media_profiles"))
    (resolveSocial (dGet d2 "social_media_profiles")) "twitter"
  let yt ← mergePlatform (resolveSocial (dGet d1 "social_media_profiles"))
    (resolveSocial (dGet d2 "social_media_profiles")) "youtube"
  let o1 ← socialLookup (resolveSocial (dGet d1 "social_media_profiles")) "other"
  let acc1 ← if truthy o1 then pyExtend [] o1 else pure []
  let o2 ← socialLookup (resolveSocial (dGet d2 "social_media_profiles")) "other"
  let acc2 ← if truthy o2 then pyExtend acc1 o2 else pure acc1
  let uo ← dedupPy [] acc2
  pure (.dict [("facebook", fb), ("instagram", ig), ("linkedin", li),
    ("twitter", tw), ("youtube", yt), ("other", .list uo)])

/-- The key used by the company/person dedup loops:
`value.lower().strip()`. -/
def lowerStrip (s : String) : String := pyStrip (pyLower s)

/-- `merge_extracted_data(img_data_image1, img_data_image2)`. -/
def merge_extracted_data (d1 d2 : Dict) : Except PyErr Dict := do
  let c1 ← mergeCompanySide (dGet d1 "company_name") (dGet d1 "company_quote")
  let c2 ← mergeCompanySide (dGet d2 "company_name") (dGet d2 "company_quote")
  let companies := dedupByKey lowerStrip [] (c1 ++ c2)
  let persons := dedupByKey lowerStrip []
      (normList (dGet d1 "person_name") ++ normList (dGet d2 "person_name"))
  let addr :=
    let a1 := dGet d1 "address"
    if truthy a1 then a1
    else
      let a2 := dGet d2 "address"
      if truthy a2 then a2 else .none
  let cat := mergeCategory (dGet d1 "category") (dGet d2 "category")
  let contact ← mergeArrays (dGet d1 "contact_numbers") (dGet d2 "contact_numbers")
  let email ← mergeArrays (dGet d1 "email_addresses") (dGet d2 "email_addresses")
  let services ← mergeArrays (dGet d1 "services") (dGet d2 "services")
  let website ← mergeArrays (dGet d1 "website") (dGet d2 "website")
  let social ← mergeSocial d1 d2
  pure [("company_name", if companies.isEmpty then .none else .list (companies.map .str)),
        ("company_quote", .none),
        ("person_name", if persons.isEmpty then .none else .list (persons.map .str)),
        ("address", addr),
        ("category", cat),
        ("contact_numbers", contact),
        ("email_addresses", email),
        ("services", services),
        ("website", website),
        ("social_media_profiles", social)]

/-!
## `info_utils.has_content`, `app.is_empty_extraction` and the
post-extraction steps of `app.process_extraction_request`
-/

mutual

/-- `info_utils.has_content`. -/
def has_content : PyVal → Bool
  | .none => false
  | .bool b => b
  | .int n => n ≠ 0
  | .float lex => truthy (.float lex)
  | .str s => pyStrip s ≠ ""
  | .list xs => hasContentList xs
  | .dict xs => hasContentDict xs

/-- `any(has_content(item) for item in value)`. -/
def hasContentList : List PyVal → Bool
  | [] => false
  | v :: vs => has_content v || hasContentList vs

/-- `any(has_content(v) for v in value.values())`. -/
def hasContentDict : List (String × PyVal) → Bool
  | [] => false
  | (_, v) :: kvs => has_content v || hasContentDict kvs

end

/-- `app.is_empty_extraction`. -/
def is_empty_extraction (d : Dict) : Bool :=
  let fields := ["company_name", "person_name", "contact_numbers",
    "email_addresses", "address", "website", "services", "category"]
  if fields.any (fun f => has_content (dGet d f)) then false
  else ¬ has_content (dGet d "social_media_profiles")

/-- The advisory message of `process_extraction_request` (line 339). -/
def notACardWarning : String :=
  "Warning: No visiting card information was extracted from the image(s). The uploaded image(s) may not be a visiting card."

/-- The warning attached by `process_extraction_request` to a
successful extraction (ignoring the S3-upload-failure branch, an
external-collaborator concern): it exists exactly when the record is an
empty extraction.  No other advisory signal is computed. -/
def extraction_warning (d : Dict) : Option String :=
  if is_empty_extraction d then some notACardWarning else Option.none

/-- Python `key.split(sep)` for a single-character separator. -/
def splitOnChar (sep : Char) : List Char → List (List Char)
  | [] => [[]]
  | c :: r =>
      if c = sep then [] :: splitOnChar sep r
      else
        match splitOnChar sep r with
        | h :: t => (c :: h) :: t
        | [] => [[c]]

/-- The `info_id` / `event_id` injection of `process_extraction_request`
(lines 328-334): slash-split the storage key and overwrite the record's
`info_id` (second-to-last part) and `event_id` (third-to-last part)
when the path is deep enough. -/
def add_ids (d : Dict) (key : String) : Dict :=
  if key = "" then d
  else
    let parts := (splitOnChar '/' key.data).map (fun l => (⟨l⟩ : String))
    let d1 :=
      if 2 ≤ parts.length then
        dSet d "info_id" (.str (parts.reverse.getD 1 ""))
      else d
    if 3 ≤ parts.length then
      dSet d1 "event_id" (.str (parts.reverse.getD 2 ""))
    else d1

/-- A field value is null or a non-empty sequence. -/
def nullOrNonemptyList (v : PyVal) : Prop :=
  v = .none ∨ ∃ l, l ≠ [] ∧ v = .list l

/-- The canonical field keys assigned by the normalizer. -/
def canonicalKeys : List String :=
  ["company_name", "company_quote", "person_name", "contact_numbers",
   "social_media_profiles", "address", "services", "website", "category"]

/-- The five named social platforms. -/
def platformKeys : List String :=
  ["facebook", "instagram", "linkedin", "twitter", "youtube"]

/-- The string entries stored in a sequence-valued field. -/
def strListOf : PyVal → List String
  | .list xs => xs.filterMap (fun x => match x with | .str s => some s | _ => Option.none)
  | _ => []

/-- The case-folded value set of a multi-value field of a record
(the deduplicated values compared case-insensitively). -/
def lowerValues (M : Dict) (f : String) : List String :=
  (strListOf (dGet M f)).map pyLower

/-- Case-folded string entries of a raw value list. -/
def lowerStrs (l : List PyVal) : List String :=
  (l.filterMap (fun x => match x with | .str s => some s | _ => Option.none)).map pyLower

/-- A field value that is null or a non-empty sequence of trimmed
strings. -/
def normishField (w : PyVal) : Prop :=
  w = .none ∨ ∃ l, l ≠ [] ∧ w = .list (l.map .str) ∧ ∀ s ∈ l, pyStrip s = s

/-- A canonical record carrying only a company-name value (all other
fields absent/null), as in the company-mismatch example of the spec. -/
def companyOnlyRec (v : PyVal) : Dict :=
  [("company_name", v), ("company_quote", .none), ("person_name", .none),
   ("contact_numbers", .none), ("email_addresses", .none), ("address", .none),
   ("services", .none), ("website", .none), ("category", .none),
   ("social_media_profiles", .dict [("facebook", .none), ("instagram", .none),
     ("linkedin", .none), ("twitter", .none), ("youtube", .none),
     ("other", .list [])])]

/-!
## Dict lemmas
-/

theorem dGet_dSet (d : Dict) (k : String) (v : PyVal) (k' : String) :
    dGet (dSet d k v) k' = if k = k' then v else dGet d k' := by
  induction d with
  | nil => simp [dSet, dGet]
  | cons kv rest ih =>
      obtain ⟨k₀, v₀⟩ := kv
      by_cases h0 : k₀ = k
      · subst h0
        by_cases h : k₀ = k' <;> simp [dSet, dGet, h]
      · by_cases h : k₀ = k'
        · subst h
          simp [dSet, dGet, if_neg h0, if_pos rfl,
            if_neg (fun hh => h0 hh.symm : ¬ k = k₀)]
        · simp [dSet, dGet, if_neg h0, if_neg h, ih]

theorem dGet_dSet_self (d : Dict) (k : String) (v : PyVal) :
    dGet (dSet d k v) k = v := by
  simp [dGet_dSet]

theorem dGet_dSet_ne (d : Dict) (k : String) (v : PyVal) (k' : String)
    (h : k ≠ k') : dGet (dSet d k v) k' = dGet d k' := by
  simp [dGet_dSet, h]

/-!
## String-primitive lemmas
-/

theorem string_ext {s t : String} (h : s.data = t.data) : s = t := by
  cases s
  cases t
  exact congrArg String.mk h

theorem dropWhile_shape (p : Char → Bool) (l : List Char) :
    List.dropWhile p l = [] ∨
      ∃ a t, List.dropWhile p l = a :: t ∧ p a = false := by
  induction l with
  | nil => exact Or.inl rfl
  | cons c r ih =>
      by_cases h : p c
      · simpa [List.dropWhile, h] using ih
      · exact Or.inr ⟨c, r, by simp [List.dropWhile, h],
          by simpa using h⟩

theorem dropWhile_rdropWhile_dropWhile (p : Char → Bool) (l : List Char) :
    List.dropWhile p (List.rdropWhile p (List.dropWhile p l)) =
      List.rdropWhile p (List.dropWhile p l) := by
  obtain h | ⟨a, t, h, hp⟩ := dropWhile_shape p l
  · rw [h]
    simp [List.rdropWhile]
  · rw [h]
    obtain ⟨s, hs⟩ := List.rdropWhile_prefix p (a :: t)
    match hrd : List.rdropWhile p (a :: t) with
    | [] => simp [List.dropWhile]
    | b :: u =>
        rw [hrd] at hs
        have hb : b = a := by
          rw [List.cons_append] at hs
          exact (List.cons_eq_cons.mp hs).1
        subst hb
        simp [List.dropWhile, hp]

theorem stripList_eq_rdrop (l : List Char) :
    stripList l = List.rdropWhile isPySpace (List.dropWhile isPySpace l) := rfl

theorem stripList_idem (l : List Char) :
    stripList (stripList l) = stripList l := by
  rw [stripList_eq_rdrop, stripList_eq_rdrop,
    dropWhile_rdropWhile_dropWhile, List.rdropWhile_idempotent]

theorem pyStrip_idem (s : String) : pyStrip (pyStrip s) = pyStrip s := by
  apply string_ext
  exact stripList_idem s.data

theorem toNat_lower_bound {c : Char} (h : 'A' ≤ c) : 65 ≤ c.toNat := by
  have h3 : ('A').val ≤ c.val := h
  rw [UInt32.le_def, BitVec.le_def] at h3
  have hz : ('A').val.toBitVec.toNat = 65 := rfl
  show 65 ≤ c.val.toBitVec.toNat
  omega

theorem isPySpace_of_ge {d : Char} (hd : 65 ≤ d.toNat) :
    isPySpace d = false := by
  have : ∀ e : Char, e.toNat ≤ 32 → d ≠ e := by
    intro e he heq
    rw [heq] at hd
    omega
  simp only [isPySpace, decide_eq_false_iff_not]
  push_neg
  refine ⟨this ' ' (by decide), this '\t' (by decide), this '\n' (by decide),
    this '\r' (by decide), this '\x0b' (by decide), this '\x0c' (by decide)⟩

theorem isPySpace_pyLowerChar (c : Char) :
    isPySpace (pyLowerChar c) = isPySpace c := by
  unfold pyLowerChar
  split
  · next h =>
      have h1 : 65 ≤ c.toNat := toNat_lower_bound h.1
      have h2 : isPySpace c = false := isPySpace_of_ge h1
      rw [h2]
      apply isPySpace_of_ge
      show 65 ≤ c.toNat + 32
      omega
  · rfl

theorem stripList_map_lower (l : List Char) :
    stripList (l.map pyLowerChar) = (stripList l).map pyLowerChar := by
  have hfun : (isPySpace ∘ pyLowerChar) = isPySpace :=
    funext isPySpace_pyLowerChar
  unfold stripList
  rw [List.dropWhile_map, hfun, ← List.map_reverse, List.dropWhile_map,
    hfun, ← List.map_reverse]

theorem pyStrip_pyLower (s : String) :
    pyStrip (pyLower s) = pyLower (pyStrip s) := by
  apply string_ext
  exact stripList_map_lower s.data

theorem pyLower_eq_empty {s : String} : pyLower s = "" ↔ s = "" := by
  constructor
  · intro h
    apply string_ext
    have : (pyLower s).data = [] := by rw [h]
    have h2 : s.data.map pyLowerChar = [] := this
    simpa using h2
  · intro h
    rw [h]
    rfl

theorem pyLower_pyStrip_of_stripped {s : String} (h : pyStrip s = s) :
    pyStrip (pyLower s) = pyLower s := by
  rw [pyStrip_pyLower, h]

/-!
## Deduplication lemmas

The key-set of the order-preserving dedup loop depends only on the set
of keys of the input, which is what makes the merge content-commutative
per multi-value field (order and surviving casing may differ).
-/

theorem mem_map_key_dedupByKey (key : String → String) :
    ∀ (seen l : List String) (s : String),
      s ∈ (dedupByKey key seen l).map key ↔
        s ≠ "" ∧ s ∉ seen ∧ s ∈ l.map key := by
  intro seen l
  induction l generalizing seen with
  | nil => simp [dedupByKey]
  | cons c cs ih =>
      intro s
      by_cases hk : key c ≠ "" ∧ key c ∉ seen
      · rw [dedupByKey, if_pos hk]
        have hne : key c ≠ "" := hk.1
        have hns : key c ∉ seen := hk.2
        simp only [List.map_cons, List.mem_cons, ih (key c :: seen) s]
        by_cases hsc : s = key c
        · subst hsc
          simp [hne, hns]
        · tauto
      · rw [dedupByKey, if_neg hk]
        have hk2 : key c = "" ∨ key c ∈ seen := by
          by_contra hcon
          push_neg at hcon
          exact hk ⟨hcon.1, hcon.2⟩
        simp only [ih seen s, List.map_cons, List.mem_cons]
        by_cases hsc : s = key c
        · subst hsc
          rcases hk2 with h | h <;> tauto
        · tauto

/-- On lists of Python strings the raw-value dedup loop of
`merge_extracted_data` never raises and agrees with `dedupByKey
pyLower` (the truthiness guard on the value coincides with the
non-emptiness guard on its key). -/
theorem dedupPy_strs :
    ∀ (seen : List String) (l : List String),
      dedupPy seen (l.map .str) =
        .ok ((dedupByKey pyLower seen l).map .str) := by
  intro seen l
  induction l generalizing seen with
  | nil => rfl
  | cons c cs ih =>
      by_cases hc : c = ""
      · subst hc
        have htr : truthy (.str "") = false := by simp [truthy]
        have hkc : ¬ (pyLower "" ≠ "" ∧ pyLower "" ∉ seen) := by
          intro hcon
          exact hcon.1 rfl
        rw [List.map_cons, dedupPy, dedupByKey, htr, if_neg hkc]
        simp only [Bool.false_eq_true, if_false]
        exact ih seen
      · rw [List.map_cons, dedupPy, dedupByKey]
        have htr : truthy (.str c) = true := by simp [truthy, hc]
        rw [htr, if_pos rfl]
        by_cases hs : pyLower c ∈ seen
        · have hkc : ¬ (pyLower c ≠ "" ∧ pyLower c ∉ seen) := by
            intro hcon
            exact hcon.2 hs
          rw [if_pos hs, if_neg hkc]
          exact ih seen
        · have hne : pyLower c ≠ "" := fun h => hc (pyLower_eq_empty.mp h)
          rw [if_neg hs, if_pos ⟨hne, hs⟩, ih (pyLower c :: seen)]
          rfl

/-!
## Field characterization of the normalizer output

`normRest` threads the record through nine key updates in source order;
these lemmas read each field of the result back in terms of the
original record (the updates touch pairwise distinct keys).
-/

theorem normRest_company_name (d : Dict) (cl : List String) :
    dGet (normRest d cl) "company_name" = listOrNone cl := by
  simp [normRest, dGet_dSet]

theorem normRest_company_quote (d : Dict) (cl : List String) :
    dGet (normRest d cl) "company_quote" = .none := by
  simp [normRest, dGet_dSet]

theorem normRest_person_name (d : Dict) (cl : List String) :
    dGet (normRest d cl) "person_name" =
      listOrNone (normList (dGet d "person_name")) := by
  simp [normRest, dGet_dSet]

theorem normRest_contact_numbers (d : Dict) (cl : List String) :
    dGet (normRest d cl) "contact_numbers" =
      listOrNone (normList (dGet d "contact_numbers")) := by
  simp [normRest, dGet_dSet]

theorem normRest_social (d : Dict) (cl : List String) :
    dGet (normRest d cl) "social_media_profiles" = .dict (socialObj d) := by
  simp only [normRest, dGet_dSet]
  norm_num
  simp [socialObj, dGet_dSet]

theorem normRest_address (d : Dict) (cl : List String) :
    dGet (normRest d cl) "address" =
      listOrNone (normList (dGet d "address")) := by
  simp [normRest, dGet_dSet]

theorem normRest_services (d : Dict) (cl : List String) :
    dGet (normRest d cl) "services" =
      listOrNone (normList (dGet d "services")) := by
  simp [normRest, dGet_dSet]

theorem normRest_website (d : Dict) (cl : List String) :
    dGet (normRest d cl) "website" =
      listOrNone (normList (dGet d "website")) := by
  simp [normRest, dGet_dSet]

theorem normRest_category (d : Dict) (cl : List String) :
    dGet (normRest d cl) "category" = normCategory (dGet d "category") := by
  simp [normRest, dGet_dSet]

theorem normRest_frame (d : Dict) (cl : List String) (k : String)
    (h1 : "company_name" ≠ k) (h2 : "company_quote" ≠ k)
    (h3 : "person_name" ≠ k) (h4 : "contact_numbers" ≠ k)
    (h5 : "social_media_profiles" ≠ k) (h6 : "address" ≠ k)
    (h7 : "services" ≠ k) (h8 : "website" ≠ k) (h9 : "category" ≠ k) :
    dGet (normRest d cl) k = dGet d k := by
  simp [normRest, dGet_dSet, h1, h2, h3, h4, h5, h6, h7, h8, h9]

/-!
## Inversion of the merge
-/

theorem merge_ok_inv (d1 d2 : Dict) (M : Dict)
    (h : merge_extracted_data d1 d2 = .ok M) :
    ∃ c1 c2 contact email services website social,
      mergeCompanySide (dGet d1 "company_name") (dGet d1 "company_quote") = .ok c1 ∧
      mergeCompanySide (dGet d2 "company_name") (dGet d2 "company_quote") = .ok c2 ∧
      mergeArrays (dGet d1 "contact_numbers") (dGet d2 "contact_numbers") = .ok contact ∧
      mergeArrays (dGet d1 "email_addresses") (dGet d2 "email_addresses") = .ok email ∧
      mergeArrays (dGet d1 "services") (dGet d2 "services") = .ok services ∧
      mergeArrays (dGet d1 "website") (dGet d2 "website") = .ok website ∧
      mergeSocial d1 d2 = .ok social ∧
      M = [("company_name",
              if (dedupByKey lowerStrip [] (c1 ++ c2)).isEmpty then .none
              else .list ((dedupByKey lowerStrip [] (c1 ++ c2)).map .str)),
           ("company_quote", .none),
           ("person_name",
              if (dedupByKey lowerStrip []
                  (normList (dGet d1 "person_name") ++ normList (dGet d2 "person_name"))).isEmpty
              then .none
              else .list ((dedupByKey lowerStrip []
                  (normList (dGet d1 "person_name") ++ normList (dGet d2 "person_name"))).map .str)),
           ("address",
              if truthy (dGet d1 "address") then dGet d1 "address"
              else if truthy (dGet d2 "address") then dGet d2 "address" else .none),
           ("category", mergeCategory (dGet d1 "category") (dGet d2 "category")),
           ("contact_numbers", contact),
           ("email_addresses", email),
           ("services", services),
           ("website", website),
           ("social_media_profiles", social)] := by
  unfold merge_extracted_data at h
  cases h1 : mergeCompanySide (dGet d1 "company_name") (dGet d1 "company_quote") with
  | error e => rw [h1] at h; simp [Bind.bind, Except.bind] at h
  | ok c1 =>
  rw [h1] at h
  cases h2 : mergeCompanySide (dGet d2 "company_name") (dGet d2 "company_quote") with
  | error e => rw [h2] at h; simp [Bind.bind, Except.bind] at h
  | ok c2 =>
  rw [h2] at h
  cases h3 : mergeArrays (dGet d1 "contact_numbers") (dGet d2 "contact_numbers") with
  | error e => rw [h3] at h; simp [Bind.bind, Except.bind] at h
  | ok contact =>
  rw [h3] at h
  cases h4 : mergeArrays (dGet d1 "email_addresses") (dGet d2 "email_addresses") with
  | error e => rw [h4] at h; simp [Bind.bind, Except.bind] at h
  | ok email =>
  rw [h4] at h
  cases h5 : mergeArrays (dGet d1 "services") (dGet d2 "services") with
  | error e => rw [h5] at h; simp [Bind.bind, Except.bind] at h
  | ok services =>
  rw [h5] at h
  cases h6 : mergeArrays (dGet d1 "website") (dGet d2 "website") with
  | error e => rw [h6] at h; simp [Bind.bind, Except.bind] at h
  | ok website =>
  rw [h6] at h
  cases h7 : mergeSocial d1 d2 with
  | error e => rw [h7] at h; simp [Bind.bind, Except.bind] at h
  | ok social =>
  rw [h7] at h
  simp only [Bind.bind, Except.bind, pure, Except.pure, Except.ok.injEq] at h
  exact ⟨c1, c2, contact, email, services, website, social,
    rfl, rfl, rfl, rfl, rfl, rfl, rfl, h.symm⟩

theorem extractFromDict_ok_inv (d : Dict) (M : Dict)
    (h : extractFromDict d = .ok M) :
    ∃ cl, companyBlock d = .ok cl ∧ M = normRest d cl := by
  unfold extractFromDict at h
  cases hcb : companyBlock d with
  | error e => rw [hcb] at h; simp [Except.map] at h
  | ok cl =>
      rw [hcb] at h
      simp only [Except.map, Except.ok.injEq] at h
      exact ⟨cl, rfl, h.symm⟩

theorem normList_stripped (v : PyVal) : ∀ s ∈ normList v, pyStrip s = s := by
  intro s hs
  unfold normList at hs
  split at hs
  · split at hs
    · next xs =>
        simp only [List.mem_map] at hs
        obtain ⟨x, _, rfl⟩ := hs
        exact pyStrip_idem _
    · next t =>
        simp only [List.mem_singleton] at hs
        subst hs
        exact pyStrip_idem _
    · simp at hs
  · simp at hs

theorem companyBlock_stripped (d : Dict) (cl : List String)
    (h : companyBlock d = .ok cl) : ∀ s ∈ cl, pyStrip s = s := by
  unfold companyBlock at h
  split at h
  · split at h
    · next heq =>
        simp only [pure, Except.pure, Except.ok.injEq] at h
        subst h
        intro s hs
        simp at hs
    · next f rest heq =>
        split at h
        · split at h
          · next q =>
              simp only [pure, Except.pure, Except.ok.injEq] at h
              subst h
              intro s hs
              rcases List.mem_cons.mp hs with rfl | hs2
              · split
                · next =>
                    have : f ∈ normList (dGet d "company_name") := by
                      rw [heq]; exact List.mem_cons_self _ _
                    exact normList_stripped _ _ this
                · exact pyStrip_idem _
              · have : s ∈ normList (dGet d "company_name") := by
                  rw [heq]; exact List.mem_cons_of_mem _ hs2
                exact normList_stripped _ _ this
          · exact absurd h (by simp [throw, throwThe, MonadExceptOf.throw])
        · simp only [pure, Except.pure, Except.ok.injEq] at h
          subst h
          intro s hs
          have : s ∈ normList (dGet d "company_name") := by
            rw [heq]; exact hs
          exact normList_stripped _ _ this
  · split at h
    · split at h
      · next q =>
          simp only [pure, Except.pure, Except.ok.injEq] at h
          subst h
          intro s hs
          simp only [List.mem_singleton] at hs
          subst hs
          exact pyStrip_idem _
      · exact absurd h (by simp [throw, throwThe, MonadExceptOf.throw])
    · simp only [pure, Except.pure, Except.ok.injEq] at h
      subst h
      intro s hs
      simp at hs

theorem listOrNone_shape (l : List String) :
    nullOrNonemptyList (listOrNone l) := by
  unfold listOrNone nullOrNonemptyList
  by_cases h : l.isEmpty
  · simp [h]
  · right
    refine ⟨l.map .str, ?_, by simp [h]⟩
    simp only [ne_eq, List.map_eq_nil_iff]
    intro hc
    rw [hc] at h
    exact h rfl

theorem companyBlock_error_types (d : Dict) (e : PyErr)
    (h : companyBlock d = .error e) :
    e = .typeError ∨ e = .attributeError := by
  unfold companyBlock at h
  split at h
  · split at h
    · simp [pure, Except.pure] at h
    · split at h
      · split at h
        · simp [pure, Except.pure] at h
        · simp only [throw, throwThe, MonadExceptOf.throw, Except.error.injEq] at h
          exact Or.inl h.symm
      · simp [pure, Except.pure] at h
  · split at h
    · split at h
      · simp [pure, Except.pure] at h
      · simp only [throw, throwThe, MonadExceptOf.throw, Except.error.injEq] at h
        exact Or.inr h.symm
    · simp [pure, Except.pure] at h

theorem mergeArrays_shape (v1 v2 : PyVal) (x : PyVal)
    (h : mergeArrays v1 v2 = .ok x) : nullOrNonemptyList x := by
  unfold mergeArrays at h
  cases hd : dedupPy [] (collectField v1 ++ collectField v2) with
  | error e => rw [hd] at h; simp [Except.map] at h
  | ok u =>
      rw [hd] at h
      simp only [Except.map, Except.ok.injEq] at h
      subst h
      by_cases hu : u.isEmpty
      · left; simp [hu]
      · right
        exact ⟨u, by simpa [List.isEmpty_iff] using hu, by simp [hu]⟩

theorem truthy_ne_empty_list {v : PyVal} (h : truthy v = true) :
    v ≠ .list [] := by
  intro heq
  rw [heq] at h
  simp [truthy] at h

theorem mergePlatform_shape (s1 s2 : PyVal) (p : String) (v : PyVal)
    (h : mergePlatform s1 s2 p = .ok v) : v ≠ .list [] := by
  unfold mergePlatform at h
  cases h1 : socialLookup s1 p with
  | error e => rw [h1] at h; simp [Bind.bind, Except.bind] at h
  | ok v1 =>
      rw [h1] at h
      simp only [Bind.bind, Except.bind] at h
      by_cases ht : truthy v1
      · rw [if_pos ht] at h
        simp only [pure, Except.pure, Except.ok.injEq] at h
        subst h
        exact truthy_ne_empty_list ht
      · rw [if_neg ht] at h
        cases h2 : socialLookup s2 p with
        | error e => rw [h2] at h; simp at h
        | ok v2 =>
            rw [h2] at h
            simp only [pure, Except.pure, Except.ok.injEq] at h
            subst h
            by_cases ht2 : truthy v2
            · rw [if_pos ht2]
              exact truthy_ne_empty_list ht2
            · rw [if_neg ht2]
              intro heq
              cases heq

theorem mergeSocialTail (d2 : Dict) (social fb ig li tw yt : PyVal)
    (acc1 : List PyVal)
    (h : (do
      let o2 ← socialLookup (resolveSocial (dGet d2 "social_media_profiles")) "other"
      let acc2 ← if truthy o2 then pyExtend acc1 o2 else pure acc1
      let uo ← dedupPy [] acc2
      pure (PyVal.dict [("facebook", fb), ("instagram", ig), ("linkedin", li),
        ("twitter", tw), ("youtube", yt), ("other", PyVal.list uo)])) = .ok social) :
    ∃ lo, social = .dict [("facebook", fb), ("instagram", ig), ("linkedin", li),
      ("twitter", tw), ("youtube", yt), ("other", .list lo)] := by
  cases h8 : socialLookup (resolveSocial (dGet d2 "social_media_profiles")) "other" with
  | error e => rw [h8] at h; simp [Bind.bind, Except.bind] at h
  | ok o2 =>
  rw [h8] at h
  simp only [Bind.bind, Except.bind] at h
  by_cases hto2 : truthy o2
  · rw [if_pos hto2] at h
    cases h9 : pyExtend acc1 o2 with
    | error e => rw [h9] at h; simp at h
    | ok acc2 =>
    rw [h9] at h
    simp only [] at h
    cases h10 : dedupPy [] acc2 with
    | error e => rw [h10] at h; simp at h
    | ok uo =>
    rw [h10] at h
    simp only [pure, Except.pure, Except.ok.injEq] at h
    exact ⟨uo, h.symm⟩
  · rw [if_neg hto2] at h
    simp only [pure, Except.pure] at h
    cases h10 : dedupPy [] acc1 with
    | error e => rw [h10] at h; simp at h
    | ok uo =>
    rw [h10] at h
    simp only [pure, Except.pure, Except.ok.injEq] at h
    exact ⟨uo, h.symm⟩

theorem mergeSocial_ok_inv (d1 d2 : Dict) (social : PyVal)
    (h : mergeSocial d1 d2 = .ok social) :
    ∃ fb ig li tw yt lo,
      mergePlatform (resolveSocial (dGet d1 "social_media_profiles"))
        (resolveSocial (dGet d2 "social_media_profiles")) "facebook" = .ok fb ∧
      mergePlatform (resolveSocial (dGet d1 "social_media_profiles"))
        (resolveSocial (dGet d2 "social_media_profiles")) "instagram" = .ok ig ∧
      mergePlatform (resolveSocial (dGet d1 "social_media_profiles"))
        (resolveSocial (dGet d2 "social_media_profiles")) "linkedin" = .ok li ∧
      mergePlatform (resolveSocial (dGet d1 "social_media_profiles"))
        (resolveSocial (dGet d2 "social_media_profiles")) "twitter" = .ok tw ∧
      mergePlatform (resolveSocial (dGet d1 "social_media_profiles"))
        (resolveSocial (dGet d2 "social_media_profiles")) "youtube" = .ok yt ∧
      social = .dict [("facebook", fb), ("instagram", ig), ("linkedin", li),
        ("twitter", tw), ("youtube", yt), ("other", .list lo)] := by
  unfold mergeSocial at h
  cases h1 : mergePlatform (resolveSocial (dGet d1 "social_media_profiles"))
      (resolveSocial (dGet d2 "social_media_profiles")) "facebook" with
  | error e => rw [h1] at h; simp [Bind.bind, Except.bind] at h
  | ok fb =>
  rw [h1] at h
  cases h2 : mergePlatform (resolveSocial (dGet d1 "social_media_profiles"))
      (resolveSocial (dGet d2 "social_media_profiles")) "instagram" with
  | error e => rw [h2] at h; simp [Bind.bind, Except.bind] at h
  | ok ig =>
  rw [h2] at h
  cases h3 : mergePlatform (resolveSocial (dGet d1 "social_media_profiles"))
      (resolveSocial (dGet d2 "social_media_profiles")) "linkedin" with
  | error e => rw [h3] at h; simp [Bind.bind, Except.bind] at h
  | ok li =>
  rw [h3] at h
  cases h4 : mergePlatform (resolveSocial (dGet d1 "social_media_profiles"))
      (resolveSocial (dGet d2 "social_media_profiles")) "twitter" with
  | error e => rw [h4] at h; simp [Bind.bind, Except.bind] at h
  | ok tw =>
  rw [h4] at h
  cases h5 : mergePlatform (resolveSocial (dGet d1 "social_media_profiles"))
      (resolveSocial (dGet d2 "social_media_profiles")) "youtube" with
  | error e => rw [h5] at h; simp [Bind.bind, Except.bind] at h
  | ok yt =>
  rw [h5] at h
  cases h6 : socialLookup (resolveSocial (dGet d1 "social_media_profiles")) "other" with
  | error e => rw [h6] at h; simp [Bind.bind, Except.bind] at h
  | ok o1 =>
  rw [h6] at h
  simp only [Bind.bind, Except.bind] at h
  by_cases hto1 : truthy o1
  · rw [if_pos hto1] at h
    cases h7 : pyExtend [] o1 with
    | error e => rw [h7] at h; simp at h
    | ok acc1 =>
    rw [h7] at h
    simp only [] at h
    rcases mergeSocialTail d2 social fb ig li tw yt acc1 h with ⟨lo, hM⟩
    exact ⟨fb, ig, li, tw, yt, lo, rfl, rfl, rfl, rfl, rfl, hM⟩
  · rw [if_neg hto1] at h
    simp only [pure, Except.pure] at h
    rcases mergeSocialTail d2 social fb ig li tw yt [] h with ⟨lo, hM⟩
    exact ⟨fb, ig, li, tw, yt, lo, rfl, rfl, rfl, rfl, rfl, hM⟩

theorem dedupByKey_subset (key : String → String) :
    ∀ (seen l : List String), ∀ s ∈ dedupByKey key seen l, s ∈ l := by
  intro seen l
  induction l generalizing seen with
  | nil => simp [dedupByKey]
  | cons c cs ih =>
      intro s hs
      rw [dedupByKey] at hs
      split at hs
      · rcases List.mem_cons.mp hs with rfl | hmem
        · exact List.mem_cons_self _ _
        · exact List.mem_cons_of_mem _ (ih _ s hmem)
      · exact List.mem_cons_of_mem _ (ih _ s hs)

theorem mergeCompanySide_stripped (cn cq : PyVal) (l : List String)
    (h : mergeCompanySide cn cq = .ok l) : ∀ s ∈ l, pyStrip s = s := by
  unfold mergeCompanySide at h
  by_cases htq : truthy cq
  · rw [if_pos htq] at h
    cases hn : normList cn with
    | nil =>
        rw [hn] at h
        cases cq with
        | str q =>
            simp only [pure, Except.pure, Except.ok.injEq] at h
            subst h
            intro s hs
            simp only [List.mem_singleton] at hs
            subst hs
            exact pyStrip_idem _
        | none => exact absurd h (by simp [throw, throwThe, MonadExceptOf.throw])
        | bool b => exact absurd h (by simp [throw, throwThe, MonadExceptOf.throw])
        | int n => exact absurd h (by simp [throw, throwThe, MonadExceptOf.throw])
        | float lex => exact absurd h (by simp [throw, throwThe, MonadExceptOf.throw])
        | list ys => exact absurd h (by simp [throw, throwThe, MonadExceptOf.throw])
        | dict ys => exact absurd h (by simp [throw, throwThe, MonadExceptOf.throw])
    | cons f rest =>
        rw [hn] at h
        cases cq with
        | str q =>
            simp only [pure, Except.pure, Except.ok.injEq] at h
            subst h
            intro s hs
            rcases List.mem_cons.mp hs with rfl | hs2
            · split
              · exact normList_stripped cn _ (hn ▸ List.mem_cons_self f rest)
              · exact pyStrip_idem _
            · exact normList_stripped cn _ (hn ▸ List.mem_cons_of_mem f hs2)
        | none => exact absurd h (by simp [throw, throwThe, MonadExceptOf.throw])
        | bool b => exact absurd h (by simp [throw, throwThe, MonadExceptOf.throw])
        | int n => exact absurd h (by simp [throw, throwThe, MonadExceptOf.throw])
        | float lex => exact absurd h (by simp [throw, throwThe, MonadExceptOf.throw])
        | list ys => exact absurd h (by simp [throw, throwThe, MonadExceptOf.throw])
        | dict ys => exact absurd h (by simp [throw, throwThe, MonadExceptOf.throw])
  · rw [if_neg htq] at h
    simp only [pure, Except.pure, Except.ok.injEq] at h
    subst h
    exact normList_stripped cn

theorem mem_dedupPy_lower :
    ∀ (l : List PyVal) (seen : List String) (u : List PyVal),
      dedupPy seen l = .ok u →
      ∀ s, s ∈ lowerStrs u ↔ s ≠ "" ∧ s ∉ seen ∧ s ∈ lowerStrs l := by
  intro l
  induction l with
  | nil =>
      intro seen u h s
      simp only [dedupPy, pure, Except.pure, Except.ok.injEq] at h
      subst h
      simp [lowerStrs]
  | cons x xs ih =>
      intro seen u h s
      cases x with
      | str t =>
          simp only [dedupPy] at h
          by_cases htne : t = ""
          · subst htne
            rw [if_neg (by simp [truthy])] at h
            have hx := ih seen u h s
            simp only [lowerStrs, List.filterMap_cons, List.map_cons] at hx ⊢
            rw [hx]
            have hl0 : pyLower "" = "" := rfl
            rw [hl0]
            by_cases hst : s = ""
            · subst hst; simp
            · simp [List.mem_cons, hst]
          · have htr : truthy (PyVal.str t) = true := by simp [truthy, htne]
            rw [if_pos htr] at h
            have hlne : pyLower t ≠ "" := fun hc => htne (pyLower_eq_empty.mp hc)
            by_cases hseen : pyLower t ∈ seen
            · rw [if_pos hseen] at h
              have hx := ih seen u h s
              simp only [lowerStrs, List.filterMap_cons, List.map_cons] at hx ⊢
              rw [hx]
              by_cases hst : s = pyLower t
              · subst hst
                constructor
                · rintro ⟨h1, h2, h3⟩
                  exact absurd hseen h2
                · rintro ⟨h1, h2, h3⟩
                  exact absurd hseen h2
              · simp [List.mem_cons, hst]
            · rw [if_neg hseen] at h
              cases hrec : dedupPy (pyLower t :: seen) xs with
              | error e => rw [hrec] at h; simp [Except.map] at h
              | ok u2 =>
                  rw [hrec] at h
                  simp only [Except.map, Except.ok.injEq] at h
                  subst h
                  have hx := ih (pyLower t :: seen) u2 hrec s
                  simp only [lowerStrs, List.filterMap_cons, List.map_cons] at hx ⊢
                  simp only [List.mem_cons, not_or] at hx ⊢
                  rw [hx]
                  by_cases hst : s = pyLower t
                  · subst hst
                    simp [hlne, hseen]
                  · simp [hst]
      | none =>
          simp only [dedupPy, truthy, Bool.false_eq_true, if_false] at h
          exact ih seen u h s
      | bool b =>
          simp only [dedupPy] at h
          by_cases htr : truthy (PyVal.bool b)
          · rw [if_pos htr] at h
            exact absurd h (by simp [throw, throwThe, MonadExceptOf.throw])
          · rw [if_neg htr] at h
            have hx := ih seen u h s
            simpa [lowerStrs, List.filterMap_cons] using hx
      | int n =>
          simp only [dedupPy] at h
          by_cases htr : truthy (PyVal.int n)
          · rw [if_pos htr] at h
            exact absurd h (by simp [throw, throwThe, MonadExceptOf.throw])
          · rw [if_neg htr] at h
            have hx := ih seen u h s
            simpa [lowerStrs, List.filterMap_cons] using hx
      | float lex =>
          simp only [dedupPy] at h
          by_cases htr : truthy (PyVal.float lex)
          · rw [if_pos htr] at h
            exact absurd h (by simp [throw, throwThe, MonadExceptOf.throw])
          · rw [if_neg htr] at h
            have hx := ih seen u h s
            simpa [lowerStrs, List.filterMap_cons] using hx
      | list ys =>
          simp only [dedupPy] at h
          by_cases htr : truthy (PyVal.list ys)
          · rw [if_pos htr] at h
            exact absurd h (by simp [throw, throwThe, MonadExceptOf.throw])
          · rw [if_neg htr] at h
            have hx := ih seen u h s
            simpa [lowerStrs, List.filterMap_cons] using hx
      | dict ys =>
          simp only [dedupPy] at h
          by_cases htr : truthy (PyVal.dict ys)
          · rw [if_pos htr] at h
            exact absurd h (by simp [throw, throwThe, MonadExceptOf.throw])
          · rw [if_neg htr] at h
            have hx := ih seen u h s
            simpa [lowerStrs, List.filterMap_cons] using hx

theorem mergeArrays_ok_inv (v1 v2 x : PyVal) (h : mergeArrays v1 v2 = .ok x) :
    ∃ u, dedupPy [] (collectField v1 ++ collectField v2) = .ok u ∧
      x = if u.isEmpty then .none else .list u := by
  unfold mergeArrays at h
  cases hd : dedupPy [] (collectField v1 ++ collectField v2) with
  | error e => rw [hd] at h; simp [Except.map] at h
  | ok u =>
      rw [hd] at h
      simp only [Except.map, Except.ok.injEq] at h
      exact ⟨u, rfl, h.symm⟩

theorem strListOf_strs (l : List String) :
    strListOf (.list (l.map .str)) = l := by
  induction l with
  | nil => rfl
  | cons c cs ih => simp [strListOf, List.filterMap_cons] at ih ⊢; exact ih

theorem map_lowerStrip_eq_map_pyLower (c : List String)
    (hstr : ∀ s ∈ c, pyStrip s = s) :
    c.map lowerStrip = c.map pyLower :=
  List.map_congr_left (fun e he => by
    show pyStrip (pyLower e) = pyLower e
    rw [pyStrip_pyLower, hstr e he])

theorem lowerValues_company_val (c : List String)
    (hstr : ∀ s ∈ c, pyStrip s = s) :
    ∀ s, s ∈ (strListOf (if (dedupByKey lowerStrip [] c).isEmpty then .none
        else .list ((dedupByKey lowerStrip [] c).map .str))).map pyLower ↔
      s ≠ "" ∧ s ∈ c.map pyLower := by
  intro s
  have hmapc := map_lowerStrip_eq_map_pyLower c hstr
  have hmapd := map_lowerStrip_eq_map_pyLower (dedupByKey lowerStrip [] c)
    (fun e he => hstr e (dedupByKey_subset lowerStrip [] c e he))
  have hkey := mem_map_key_dedupByKey lowerStrip [] c s
  simp only [List.not_mem_nil, not_false_iff, true_and] at hkey
  by_cases hemp : (dedupByKey lowerStrip [] c).isEmpty
  · have hnil : dedupByKey lowerStrip [] c = [] := by simpa using hemp
    rw [if_pos hemp]
    simp only [strListOf, List.map_nil, List.not_mem_nil, false_iff, not_and]
    intro hne hmem
    rw [hnil] at hkey
    simp only [List.map_nil, List.not_mem_nil, false_iff] at hkey
    exact hkey ⟨hne, by rwa [hmapc]⟩
  · rw [if_neg hemp, strListOf_strs, ← hmapd, hkey, hmapc]

theorem lowerValues_array_val (l : List PyVal) (u : List PyVal)
    (h : dedupPy [] l = .ok u) :
    ∀ s, s ∈ (strListOf (if u.isEmpty then .none else .list u)).map pyLower ↔
      s ≠ "" ∧ s ∈ lowerStrs l := by
  intro s
  have hml := mem_dedupPy_lower l [] u h s
  simp only [List.not_mem_nil, not_false_iff, true_and] at hml
  by_cases hemp : u.isEmpty
  · have hu : u = [] := by simpa using hemp
    subst hu
    rw [if_pos hemp]
    simp only [strListOf, List.map_nil, List.not_mem_nil, false_iff, not_and]
    intro hne hmem
    simp only [lowerStrs, List.filterMap_nil, List.map_nil,
      List.not_mem_nil, false_iff] at hml
    exact hml ⟨hne, hmem⟩
  · rw [if_neg hemp]
    have heq : (strListOf (.list u)).map pyLower = lowerStrs u := rfl
    rw [heq, hml]

theorem mem_lowerStrs_append_comm (a b : List PyVal) (s : String) :
    s ∈ lowerStrs (a ++ b) ↔ s ∈ lowerStrs (b ++ a) := by
  simp only [lowerStrs, List.filterMap_append, List.map_append,
    List.mem_append]
  exact or_comm

/-!
## Claims
-/

/-- C5: the claim says normalization never raises for any top-level
mapping regardless of individual field types.  The code violates this:
with `company_name = "Acme"` and `company_quote = 7` (an integer), the
membership test `company_quote not in first_company` raises `TypeError`
(`extract_info.py` line 34), so the whole extraction fails on a
well-formed top-level mapping.  This theorem evaluates the code at that
failing input, both through the full `extract_information` entry point
and on the already-parsed mapping. -/
theorem claim_C5_quote_type_crash :
    extract_information "\x7b\"company_name\": \"Acme\", \"company_quote\": 7\x7d"
        = .error .typeError ∧
    jsonLoads "\x7b\"company_name\": \"Acme\", \"company_quote\": 7\x7d"
        = some (.dict [("company_name", .str "Acme"), ("company_quote", .int 7)]) ∧
    extractFromDict [("company_name", .str "Acme"), ("company_quote", .int 7)]
        = .error .typeError ∧
    extractFromDict [("company_quote", .int 7)] = .error .attributeError :=
  ⟨rfl, rfl, rfl, rfl⟩

/-- C8, counterexample: the claim says every sequence-or-null field —
explicitly including the social 'other' subfield — collapses to null
when empty.  But both the normalizer (`extract_info.py` line 122) and
the merger (`merge_info.py` line 158) set `other` to the EMPTY LIST
when nothing survives, and the empty list is not null. -/
theorem claim_C8_counterexample :
    (extractFromDict []).map (fun M =>
      match dGet M "social_media_profiles" with
      | .dict s => dGet s "other"
      | _ => .int 0) = .ok (.list []) ∧
    (merge_extracted_data (companyOnlyRec .none) (companyOnlyRec .none)).map
      (fun M =>
        match dGet M "social_media_profiles" with
        | .dict s => dGet s "other"
        | _ => .int 0) = .ok (.list []) ∧
    (PyVal.list []) ≠ PyVal.none :=
  ⟨rfl, rfl, nofun⟩

/-- C8, amended: every sequence-typed field of the normalizer and the
merger output is null or a non-empty sequence — EXCEPT the social
'other' subfield, which is always a sequence (the empty sequence when
nothing survives), never null, in both the normalizer and the merger.
Merged platform values and the merged address are never the empty
sequence either. -/
theorem claim_C8_amended :
    (∀ d M, extractFromDict d = .ok M →
      (∀ f ∈ (["company_name", "person_name", "contact_numbers", "address",
          "services", "website"] : List String),
        nullOrNonemptyList (dGet M f)) ∧
      ∃ s, dGet M "social_media_profiles" = .dict s ∧
        (∀ p ∈ platformKeys, nullOrNonemptyList (dGet s p)) ∧
        dGet s "other" = .list ((normList (dGet d "other")).map .str)) ∧
    (∀ d1 d2 M, merge_extracted_data d1 d2 = .ok M →
      (∀ f ∈ (["company_name", "person_name", "contact_numbers",
          "email_addresses", "services", "website"] : List String),
        nullOrNonemptyList (dGet M f)) ∧
      dGet M "address" ≠ .list [] ∧
      ∃ s, dGet M "social_media_profiles" = .dict s ∧
        (∀ p ∈ platformKeys, dGet s p ≠ .list []) ∧
        ∃ lo, dGet s "other" = .list lo) := by
  constructor
  · intro d M hok
    obtain ⟨cl, hcb, rfl⟩ := extractFromDict_ok_inv d M hok
    constructor
    · intro f hf
      simp only [List.mem_cons, List.not_mem_nil, or_false] at hf
      rcases hf with rfl | rfl | rfl | rfl | rfl | rfl
      · rw [normRest_company_name]; exact listOrNone_shape cl
      · rw [normRest_person_name]; exact listOrNone_shape _
      · rw [normRest_contact_numbers]; exact listOrNone_shape _
      · rw [normRest_address]; exact listOrNone_shape _
      · rw [normRest_services]; exact listOrNone_shape _
      · rw [normRest_website]; exact listOrNone_shape _
    · refine ⟨socialObj d, normRest_social d cl, ?_, ?_⟩
      · intro p hp
        simp only [platformKeys, List.mem_cons, List.not_mem_nil, or_false] at hp
        rcases hp with rfl | rfl | rfl | rfl | rfl <;>
          · simp only [socialObj]
            simp [dGet]
            exact listOrNone_shape _
      · cases hn : normList (dGet d "other") <;> simp [socialObj, dGet, hn]
  · intro d1 d2 M hok
    obtain ⟨c1, c2, contact, email, services, website, social,
      h1, h2, h3, h4, h5, h6, h7, rfl⟩ := merge_ok_inv d1 d2 M hok
    refine ⟨?_, ?_, ?_⟩
    · intro f hf
      simp only [List.mem_cons, List.not_mem_nil, or_false] at hf
      rcases hf with rfl | rfl | rfl | rfl | rfl | rfl
      · simp only [dGet]
        simp only [String.reduceEq, reduceIte]
        by_cases hemp : (dedupByKey lowerStrip [] (c1 ++ c2)).isEmpty
        · left; rw [if_pos hemp]
        · right
          refine ⟨(dedupByKey lowerStrip [] (c1 ++ c2)).map .str, ?_,
            by rw [if_neg hemp]⟩
          simp only [ne_eq, List.map_eq_nil_iff]
          intro hcon
          rw [hcon] at hemp
          exact hemp rfl
      · simp only [dGet]
        simp only [String.reduceEq, reduceIte]
        by_cases hemp : (dedupByKey lowerStrip []
            (normList (dGet d1 "person_name") ++ normList (dGet d2 "person_name"))).isEmpty
        · left; rw [if_pos hemp]
        · right
          refine ⟨_, ?_, by rw [if_neg hemp]⟩
          simp only [ne_eq, List.map_eq_nil_iff]
          intro hcon
          rw [hcon] at hemp
          exact hemp rfl
      · simp only [dGet]
        simp only [String.reduceEq, reduceIte]
        exact mergeArrays_shape _ _ _ h3
      · simp only [dGet]
        simp only [String.reduceEq, reduceIte]
        exact mergeArrays_shape _ _ _ h4
      · simp only [dGet]
        simp only [String.reduceEq, reduceIte]
        exact mergeArrays_shape _ _ _ h5
      · simp only [dGet]
        simp only [String.reduceEq, reduceIte]
        exact mergeArrays_shape _ _ _ h6
    · simp only [dGet]
      simp only [String.reduceEq, reduceIte]
      by_cases ht1 : truthy (dGet d1 "address")
      · rw [if_pos ht1]; exact truthy_ne_empty_list ht1
      · rw [if_neg ht1]
        by_cases ht2 : truthy (dGet d2 "address")
        · rw [if_pos ht2]; exact truthy_ne_empty_list ht2
        · rw [if_neg ht2]; nofun
    · obtain ⟨fb, ig, li, tw, yt, lo, hfb, hig, hli, htw, hyt, rfl⟩ :=
        mergeSocial_ok_inv d1 d2 social h7
      refine ⟨[("facebook", fb), ("instagram", ig), ("linkedin", li),
        ("twitter", tw), ("youtube", yt), ("other", .list lo)], ?_, ?_, lo, ?_⟩
      · simp only [dGet]
        simp only [String.reduceEq, reduceIte]
      · intro p hp
        simp only [platformKeys, List.mem_cons, List.not_mem_nil, or_false] at hp
        rcases hp with rfl | rfl | rfl | rfl | rfl
        · simp only [dGet, String.reduceEq, reduceIte]
          exact mergePlatform_shape _ _ _ _ hfb
        · simp only [dGet, String.reduceEq, reduceIte]
          exact mergePlatform_shape _ _ _ _ hig
        · simp only [dGet, String.reduceEq, reduceIte]
          exact mergePlatform_shape _ _ _ _ hli
        · simp only [dGet, String.reduceEq, reduceIte]
          exact mergePlatform_shape _ _ _ _ htw
        · simp only [dGet, String.reduceEq, reduceIte]
          exact mergePlatform_shape _ _ _ _ hyt
      · simp only [dGet]
        simp only [String.reduceEq, reduceIte]

/-- The normalizer output for the empty mapping, used as a witness. -/
def extractEmptyOut : Dict := (extractFromDict []).toOption.getD []

/-- The merge of two all-null canonical records, used as a witness. -/
def mergedNullOut : Dict :=
  (merge_extracted_data (companyOnlyRec .none) (companyOnlyRec .none)).toOption.getD []

/-- Witness for C8's amended theorem at concrete inputs. -/
theorem claim_C8_witness :
    nullOrNonemptyList (dGet extractEmptyOut "person_name") ∧
    dGet mergedNullOut "address" ≠ .list [] :=
  ⟨(claim_C8_amended.1 [] extractEmptyOut rfl).1 "person_name" (by simp),
   ((claim_C8_amended.2 (companyOnlyRec .none) (companyOnlyRec .none)
      mergedNullOut rfl).2).1⟩

/-- C2, counterexample: the claim says multi-value normalization
dedups case-insensitively, keeps only non-empty-after-trim entries,
and turns a bare string into a one-element sequence for every
multi-value field including `email_addresses`.  The code does none of
the first two and never touches `email_addresses`: `["A", "a"]`
survives with both (case-insensitive) duplicates, a whitespace-only
entry survives as the empty string, and a bare-string
`email_addresses` stays a bare string. -/
theorem claim_C2_counterexample :
    (extractFromDict [("company_name", .list [.str "A", .str "a"])]).map
      (fun M => dGet M "company_name") = .ok (.list [.str "A", .str "a"]) ∧
    pyLower (pyStrip "A") = pyLower (pyStrip "a") ∧
    (extractFromDict [("person_name", .list [.str " "])]).map
      (fun M => dGet M "person_name") = .ok (.list [.str ""]) ∧
    (extractFromDict [("email_addresses", .str "a@x.com")]).map
      (fun M => dGet M "email_addresses") = .ok (.str "a@x.com") :=
  ⟨rfl, rfl, rfl, rfl⟩

/-- C2, amended: for the multi-value fields the normalizer actually
handles (company_name, person_name, contact_numbers, address,
services, website — not email_addresses, which passes through
untouched), the result is null or a non-empty ordered sequence of
trimmed strings, and a non-empty bare string becomes a one-element
sequence holding its trim; but entries may be empty after trimming and
case-insensitive duplicates are NOT removed (see the
counterexample). -/
theorem claim_C2_amended :
    (∀ d M f, extractFromDict d = .ok M →
      f ∈ (["company_name", "person_name", "contact_numbers", "address",
        "services", "website"] : List String) →
      normishField (dGet M f)) ∧
    (∀ d M f s, extractFromDict d = .ok M →
      f ∈ (["person_name", "contact_numbers", "address", "services",
        "website"] : List String) →
      dGet d f = .str s → s ≠ "" → dGet M f = .list [.str (pyStrip s)]) ∧
    (∀ d M, extractFromDict d = .ok M →
      dGet M "email_addresses" = dGet d "email_addresses") := by
  have hsh : ∀ (l : List String), (∀ s ∈ l, pyStrip s = s) →
      normishField (listOrNone l) := by
    intro l hstr
    by_cases h : l.isEmpty
    · left; simp [listOrNone, h]
    · right
      exact ⟨l, by simpa using h, by simp [listOrNone, h], hstr⟩
  have hsingle : ∀ (s : String), s ≠ "" →
      listOrNone (normList (.str s)) = .list [.str (pyStrip s)] := by
    intro s hs
    have : normList (.str s) = [pyStrip s] := by
      simp [normList, truthy, hs]
    rw [this]
    simp [listOrNone]
  refine ⟨?_, ?_, ?_⟩
  · intro d M f hok hf
    obtain ⟨cl, hcb, rfl⟩ := extractFromDict_ok_inv d M hok
    simp only [List.mem_cons, List.not_mem_nil, or_false] at hf
    rcases hf with rfl | rfl | rfl | rfl | rfl | rfl
    · rw [normRest_company_name]
      exact hsh cl (companyBlock_stripped d cl hcb)
    · rw [normRest_person_name]; exact hsh _ (normList_stripped _)
    · rw [normRest_contact_numbers]; exact hsh _ (normList_stripped _)
    · rw [normRest_address]; exact hsh _ (normList_stripped _)
    · rw [normRest_services]; exact hsh _ (normList_stripped _)
    · rw [normRest_website]; exact hsh _ (normList_stripped _)
  · intro d M f s hok hf heq hs
    obtain ⟨cl, hcb, rfl⟩ := extractFromDict_ok_inv d M hok
    simp only [List.mem_cons, List.not_mem_nil, or_false] at hf
    rcases hf with rfl | rfl | rfl | rfl | rfl
    · rw [normRest_person_name, heq]; exact hsingle s hs
    · rw [normRest_contact_numbers, heq]; exact hsingle s hs
    · rw [normRest_address, heq]; exact hsingle s hs
    · rw [normRest_services, heq]; exact hsingle s hs
    · rw [normRest_website, heq]; exact hsingle s hs
  · intro d M hok
    obtain ⟨cl, hcb, rfl⟩ := extractFromDict_ok_inv d M hok
    exact normRest_frame d cl "email_addresses" (by decide) (by decide)
      (by decide) (by decide) (by decide) (by decide) (by decide)
      (by decide) (by decide)

/-- Input record used by the C2 witness. -/
def c2WitnessIn : Dict :=
  [("person_name", .str "Bob"), ("email_addresses", .str "e@x.com")]

/-- Normalizer output of `c2WitnessIn`. -/
def c2WitnessOut : Dict := (extractFromDict c2WitnessIn).toOption.getD []

/-- Witness for C2's amended theorem at a concrete record. -/
theorem claim_C2_witness :
    dGet c2WitnessOut "person_name" = .list [.str (pyStrip "Bob")] ∧
    dGet c2WitnessOut "email_addresses" = dGet c2WitnessIn "email_addresses" :=
  ⟨claim_C2_amended.2.1 c2WitnessIn c2WitnessOut "person_name" "Bob" rfl
      (by simp) rfl (by decide),
   claim_C2_amended.2.2 c2WitnessIn c2WitnessOut rfl⟩

/-- C3, counterexample: the claim says a raw object whose NESTED
`social_media_profiles` mapping carries a facebook URL normalizes to a
social record whose facebook field is that one-element sequence.  The
code reads the platforms from the TOP LEVEL of the record
(`extract_info.py` line 89) and overwrites the nested mapping, so the
URL is lost and facebook is null; and a missing social input yields
`other = []`, not all-null. -/
theorem claim_C3_counterexample :
    (extractFromDict [("social_media_profiles",
        .dict [("facebook", .str "https://fb.example/acme")])]).map
      (fun M =>
        match dGet M "social_media_profiles" with
        | .dict s => dGet s "facebook"
        | _ => .int 0) = .ok .none ∧
    PyVal.none ≠ .list [.str "https://fb.example/acme"] :=
  ⟨rfl, nofun⟩

/-- C3, amended: the normalizer builds the social record from the
TOP-LEVEL keys `facebook` … `youtube` and `other` of the raw object
(applying the usual multi-value normalization to each), ignoring any
nested `social_media_profiles` value; when those top-level keys are
absent every platform is null but `other` is the empty sequence; a
top-level facebook URL string yields a one-element facebook
sequence. -/
theorem claim_C3_amended :
    (∀ d M, extractFromDict d = .ok M →
      dGet M "social_media_profiles" = .dict (socialObj d)) ∧
    (∀ d v, socialObj (dSet d "social_media_profiles" v) = socialObj d) ∧
    (∀ d u, dGet d "facebook" = .str u → u ≠ "" →
      dGet (socialObj d) "facebook" = .list [.str (pyStrip u)]) ∧
    (∀ d : Dict, (∀ p ∈ platformKeys, dGet d p = .none) →
      dGet d "other" = .none →
      socialObj d = [("facebook", .none), ("instagram", .none),
        ("linkedin", .none), ("twitter", .none), ("youtube", .none),
        ("other", .list [])]) := by
  refine ⟨?_, ?_, ?_, ?_⟩
  · intro d M hok
    obtain ⟨cl, hcb, rfl⟩ := extractFromDict_ok_inv d M hok
    exact normRest_social d cl
  · intro d v
    simp [socialObj, dGet_dSet]
  · intro d u hu hne
    have : normList (dGet d "facebook") = [pyStrip u] := by
      rw [hu]
      simp [normList, truthy, hne]
    simp [socialObj, dGet, this, listOrNone]
  · intro d hp ho
    have hf := hp "facebook" (by simp [platformKeys])
    have hi := hp "instagram" (by simp [platformKeys])
    have hl := hp "linkedin" (by simp [platformKeys])
    have ht := hp "twitter" (by simp [platformKeys])
    have hy := hp "youtube" (by simp [platformKeys])
    simp [socialObj, hf, hi, hl, ht, hy, ho, normList, truthy, listOrNone]

/-- Input record used by the C3 witness. -/
def c3WitnessIn : Dict := [("facebook", .str "https://fb.example/acme")]

/-- Witness for C3's amended theorem at a concrete record. -/
theorem claim_C3_witness :
    dGet (socialObj c3WitnessIn) "facebook"
      = .list [.str (pyStrip "https://fb.example/acme")] :=
  claim_C3_amended.2.2.1 c3WitnessIn "https://fb.example/acme" rfl (by decide)

/-- C6, counterexample: the claim says a non-empty source array for
`category` collapses to its first NON-EMPTY trimmed element (null if
none).  The code filters only pre-trim-falsy elements and then takes
the first (`extract_info.py` lines 185-186), so `[" ", "X"]` yields
the empty string — neither `"X"` nor null. -/
theorem claim_C6_counterexample :
    (extractFromDict [("category", .list [.str " ", .str "X"])]).map
      (fun M => dGet M "category") = .ok (.str "") ∧
    PyVal.str "" ≠ .str "X" ∧ PyVal.str "" ≠ .none :=
  ⟨rfl, by intro h; injection h with h2; exact absurd h2 (by decide), nofun⟩

/-- C6, amended: the normalized category is always a scalar string or
null, never a sequence; a source array collapses to the trimmed
stringification of its first TRUTHY element (which may be the empty
string), null when no element is truthy; and the merger takes the
first TRUTHY (not merely non-null) side's category, stripping string
values. -/
theorem claim_C6_amended :
    (∀ d M, extractFromDict d = .ok M →
      dGet M "category" = .none ∨ ∃ s, dGet M "category" = .str s) ∧
    (∀ d M xs, extractFromDict d = .ok M → dGet d "category" = .list xs →
      dGet M "category" =
        (match (xs.filter truthy).map (fun x => pyStrip (pyStr x)) with
         | [] => .none
         | h :: _ => .str h)) ∧
    (∀ d1 d2 M s, merge_extracted_data d1 d2 = .ok M →
      dGet d1 "category" = .str s → pyStrip s ≠ "" →
      dGet M "category" = .str (pyStrip s)) ∧
    (∀ d1 d2 M s, merge_extracted_data d1 d2 = .ok M →
      truthy (dGet d1 "category") = false → dGet d2 "category" = .str s →
      pyStrip s ≠ "" → dGet M "category" = .str (pyStrip s)) := by
  refine ⟨?_, ?_, ?_, ?_⟩
  · intro d M hok
    obtain ⟨cl, hcb, rfl⟩ := extractFromDict_ok_inv d M hok
    rw [normRest_category]
    unfold normCategory
    split
    · split
      · split
        · exact Or.inl rfl
        · exact Or.inr ⟨_, rfl⟩
      · split
        · exact Or.inl rfl
        · exact Or.inr ⟨_, rfl⟩
      · exact Or.inl rfl
    · exact Or.inl rfl
  · intro d M xs hok hcat
    obtain ⟨cl, hcb, rfl⟩ := extractFromDict_ok_inv d M hok
    rw [normRest_category, hcat]
    cases xs with
    | nil => simp [normCategory, truthy]
    | cons x xs' =>
        have htr : truthy (.list (x :: xs')) = true := by simp [truthy]
        simp only [normCategory, htr, if_true]
  · intro d1 d2 M s hok hcat hstrip
    obtain ⟨c1, c2, contact, email, services, website, social,
      h1, h2, h3, h4, h5, h6, h7, rfl⟩ := merge_ok_inv d1 d2 M hok
    have hs : s ≠ "" := by
      intro h
      rw [h] at hstrip
      exact hstrip rfl
    simp only [dGet, String.reduceEq, reduceIte]
    simp only [mergeCategory]
    rw [hcat]
    simp [truthy, hs, hstrip]
  · intro d1 d2 M s hok hf hcat hstrip
    obtain ⟨c1, c2, contact, email, services, website, social,
      h1, h2, h3, h4, h5, h6, h7, rfl⟩ := merge_ok_inv d1 d2 M hok
    have hs : s ≠ "" := by
      intro h
      rw [h] at hstrip
      exact hstrip rfl
    simp only [dGet, String.reduceEq, reduceIte]
    simp only [mergeCategory]
    rw [hcat, hf]
    simp [truthy, hs, hstrip]

/-- Records used by the C6 witness. -/
def c6WitnessIn : Dict := [("category", .str "Consulting")]

/-- Merge output used by the C6 witness. -/
def c6WitnessOut : Dict :=
  (merge_extracted_data c6WitnessIn []).toOption.getD []

/-- Witness for C6's amended theorem at a concrete record. -/
theorem claim_C6_witness :
    dGet c6WitnessOut "category" = .str (pyStrip "Consulting") :=
  claim_C6_amended.2.2.1 c6WitnessIn [] c6WitnessOut "Consulting" rfl rfl
    (by decide)

/-- C7, counterexample: the claim says that when a non-empty
`company_quote` is present and there is no company name, the trimmed
quote becomes the sole company-name entry.  But the quote-as-sole-name
branch (`extract_info.py` line 36) is an `elif` on the TRUTHINESS of
the raw `company_name`: a truthy `company_name` whose entries all
normalize away (here `[""]`) silently discards the quote, leaving
`company_name` null. -/
theorem claim_C7_counterexample :
    (extractFromDict [("company_name", .list [.str ""]),
        ("company_quote", .str "Q")]).map
      (fun M => (dGet M "company_name", dGet M "company_quote"))
      = .ok (.none, .none) ∧
    PyVal.none ≠ .list [.str "Q"] :=
  ⟨rfl, nofun⟩

/-- C7, amended: with a present non-empty string `company_quote`: the
output quote field is always null; if the company name normalizes to a
non-empty list whose first entry is `f`, the quote is absorbed into
`f` (unchanged when already a substring, else appended after a newline
and re-trimmed); if the raw company name is FALSY, the trimmed quote
becomes the sole entry; but if the raw company name is truthy and
normalizes to the empty list, the quote is DISCARDED and the field is
null. -/
theorem claim_C7_amended :
    ∀ d M q, extractFromDict d = .ok M →
      dGet d "company_quote" = .str q → q ≠ "" →
      dGet M "company_quote" = .none ∧
      (∀ f rest, normList (dGet d "company_name") = f :: rest →
        dGet M "company_name" =
          .list (((if pyIn q f then f
            else pyStrip (f ++ "\n" ++ q)) :: rest).map .str)) ∧
      (truthy (dGet d "company_name") = false →
        dGet M "company_name" = .list [.str (pyStrip q)]) ∧
      (truthy (dGet d "company_name") = true →
        normList (dGet d "company_name") = [] →
        dGet M "company_name" = .none) := by
  intro d M q hok hq hqne
  obtain ⟨cl, hcb, rfl⟩ := extractFromDict_ok_inv d M hok
  have hqt : truthy (dGet d "company_quote") = true := by
    rw [hq]; simp [truthy, hqne]
  refine ⟨normRest_company_quote d cl, ?_, ?_, ?_⟩
  · intro f rest hnorm
    have htr : truthy (dGet d "company_name") = true := by
      by_contra hc
      have : normList (dGet d "company_name") = [] := by
        simp [normList, Bool.eq_false_iff.mpr hc]
      rw [this] at hnorm
      cases hnorm
    unfold companyBlock at hcb
    rw [htr, hnorm, hqt, hq] at hcb
    simp only [if_true, pure, Except.pure, Except.ok.injEq] at hcb
    rw [normRest_company_name, ← hcb]
    simp [listOrNone]
  · intro hfalse
    unfold companyBlock at hcb
    rw [hfalse, hqt, hq] at hcb
    simp only [Bool.false_eq_true, if_false, if_true, pure, Except.pure,
      Except.ok.injEq] at hcb
    rw [normRest_company_name, ← hcb]
    simp [listOrNone]
  · intro htrue hnil
    unfold companyBlock at hcb
    rw [htrue, hnil] at hcb
    simp only [if_true, pure, Except.pure, Except.ok.injEq] at hcb
    rw [normRest_company_name, ← hcb]
    simp [listOrNone]

/-- Record used by the C7 witness (quote only, no company name). -/
def c7WitnessIn : Dict := [("company_quote", .str "Best Widgets")]

/-- Normalizer output of `c7WitnessIn`. -/
def c7WitnessOut : Dict := (extractFromDict c7WitnessIn).toOption.getD []

/-- Witness for C7's amended theorem at a concrete record. -/
theorem claim_C7_witness :
    dGet c7WitnessOut "company_quote" = .none ∧
    dGet c7WitnessOut "company_name" = .list [.str (pyStrip "Best Widgets")] :=
  ⟨(claim_C7_amended c7WitnessIn c7WitnessOut "Best Widgets" rfl rfl
      (by decide)).1,
   (claim_C7_amended c7WitnessIn c7WitnessOut "Best Widgets" rfl rfl
      (by decide)).2.2.1 rfl⟩

/-- C4, counterexample: the claim says the parser strips at most one
LEADING/TRAILING fence pair and then fails exactly when the remaining
text is not valid JSON.  But the split is positional, not anchored:
for the fence-free valid JSON document `{"x": "a``` b"}` (a backtick
run inside a string literal, no leading fence), the code cuts at the
interior ``` ` ``` and fails, even though the whole text parses; and
when a labeled ` ```json ` fence appears AFTER an unlabeled fence
pair, the labeled one wins over "the first fence pair", so the valid
JSON inside the first pair is ignored and parsing fails. -/
theorem claim_C4_counterexample :
    extract_information "\x7b\"x\": \"a``` b\"\x7d" = .error .jsonDecodeError ∧
    jsonLoads "\x7b\"x\": \"a``` b\"\x7d" = some (.dict [("x", .str "a``` b")]) ∧
    ("```").data.isPrefixOf ("\x7b\"x\": \"a``` b\"\x7d").data = false ∧
    extract_information "``` \x7b\"a\": 1\x7d ``` ```json junk"
      = .error .jsonDecodeError ∧
    jsonLoads "\x7b\"a\": 1\x7d" = some (.dict [("a", .int 1)]) :=
  ⟨rfl, rfl, rfl, rfl, rfl⟩

/-- C4, amended: the parser takes as its parse candidate the trimmed
text between the end of the FIRST ` ```json ` marker anywhere in the
input and the next ` ``` ` (if ` ```json ` occurs), else the trimmed
text between the first and second ` ``` ` (if ` ``` ` occurs), else
the whole text (`candidateText`); it raises the JSON parse failure
exactly when that candidate is not valid JSON, and on a successfully
parsed mapping it proceeds directly to field normalization with no
failure mode in between (a parsed non-mapping raises `AttributeError`
instead, which is not a parse failure). -/
theorem claim_C4_amended :
    ∀ t : String,
      (extract_information t = .error .jsonDecodeError ↔
        jsonLoads (candidateText t) = Option.none) ∧
      (∀ d, jsonLoads (candidateText t) = some (.dict d) →
        extract_information t = extractFromDict d) := by
  intro t
  have hnj : ∀ d : Dict, extractFromDict d ≠ .error .jsonDecodeError := by
    intro d hcon
    unfold extractFromDict at hcon
    cases hcb : companyBlock d with
    | ok cl => rw [hcb] at hcon; simp [Except.map] at hcon
    | error e =>
        rw [hcb] at hcon
        simp only [Except.map, Except.error.injEq] at hcon
        rcases companyBlock_error_types d e hcb with rfl | rfl <;> cases hcon
  unfold extract_information
  cases hj : jsonLoads (candidateText t) with
  | none =>
      refine ⟨by simp, ?_⟩
      intro d hd
      cases hd
  | some v =>
      cases v with
      | dict d =>
          refine ⟨?_, ?_⟩
          · constructor
            · intro hcon
              exact absurd hcon (hnj d)
            · intro hcon
              cases hcon
          · intro d' hd'
            injection hd' with h
            injection h with h2
            rw [h2]
      | none => exact ⟨by constructor <;> (intro h; cases h), by intro d hd; cases hd⟩
      | bool b => exact ⟨by constructor <;> (intro h; cases h), by intro d hd; cases hd⟩
      | int n => exact ⟨by constructor <;> (intro h; cases h), by intro d hd; cases hd⟩
      | float lex => exact ⟨by constructor <;> (intro h; cases h), by intro d hd; cases hd⟩
      | str s => exact ⟨by constructor <;> (intro h; cases h), by intro d hd; cases hd⟩
      | list xs => exact ⟨by constructor <;> (intro h; cases h), by intro d hd; cases hd⟩

/-- Witness for C4's amended theorem: a fenced response parses and
goes straight to normalization. -/
theorem claim_C4_witness :
    extract_information "```json\n\x7b\"a\": 1\x7d\n```"
      = extractFromDict [("a", .int 1)] :=
  (claim_C4_amended "```json\n\x7b\"a\": 1\x7d\n```").2 [("a", .int 1)] rfl

/-- C10, counterexample: the claim says every non-canonical top-level
key the model emitted flows verbatim into the response's data payload.
But `process_extraction_request` (app.py lines 328-334) overwrites
`info_id` and `event_id` from the storage-key path before building the
response, so a model-emitted `info_id` does not survive. -/
theorem claim_C10_counterexample :
    (extractFromDict [("info_id", .str "original")]).map
      (fun M => dGet (add_ids M "e/i/f.jpg") "info_id") = .ok (.str "i") ∧
    PyVal.str "i" ≠ .str "original" :=
  ⟨rfl, by intro h; injection h with h2; exact absurd h2 (by decide)⟩

/-- C10, amended: normalization preserves every top-level key outside
the nine canonical ones unchanged (the raw per-platform keys and any
extra keys included), and such a key also flows unchanged into the
response's data payload UNLESS it is `info_id` or `event_id`, which
`process_extraction_request` may overwrite from the storage-key
path. -/
theorem claim_C10_amended :
    (∀ d M k, extractFromDict d = .ok M → k ∉ canonicalKeys →
      dGet M k = dGet d k) ∧
    (∀ d M key k, extractFromDict d = .ok M → k ∉ canonicalKeys →
      k ≠ "info_id" → k ≠ "event_id" →
      dGet (add_ids M key) k = dGet d k) := by
  have hframe : ∀ d M k, extractFromDict d = .ok M → k ∉ canonicalKeys →
      dGet M k = dGet d k := by
    intro d M k hok hk
    obtain ⟨cl, hcb, rfl⟩ := extractFromDict_ok_inv d M hok
    simp only [canonicalKeys, List.mem_cons, List.not_mem_nil, or_false,
      not_or] at hk
    obtain ⟨h1, h2, h3, h4, h5, h6, h7, h8, h9⟩ := hk
    exact normRest_frame d cl k (Ne.symm h1) (Ne.symm h2) (Ne.symm h3)
      (Ne.symm h4) (Ne.symm h5) (Ne.symm h6) (Ne.symm h7) (Ne.symm h8)
      (Ne.symm h9)
  have hadd : ∀ (d : Dict) (key k : String), k ≠ "info_id" → k ≠ "event_id" →
      dGet (add_ids d key) k = dGet d k := by
    intro d key k h1 h2
    simp only [add_ids]
    split
    · rfl
    · split
      · rw [dGet_dSet_ne _ _ _ _ (Ne.symm h2)]
        split
        · rw [dGet_dSet_ne _ _ _ _ (Ne.symm h1)]
        · rfl
      · split
        · rw [dGet_dSet_ne _ _ _ _ (Ne.symm h1)]
        · rfl
  refine ⟨hframe, ?_⟩
  intro d M key k hok hk h1 h2
  rw [hadd M key k h1 h2]
  exact hframe d M k hok hk

/-- Record with an extra key used by the C10 witness. -/
def c10WitnessIn : Dict := [("custom_key", .str "kept")]

/-- Normalizer output of `c10WitnessIn`. -/
def c10WitnessOut : Dict := (extractFromDict c10WitnessIn).toOption.getD []

/-- Witness for C10's amended theorem at a concrete record. -/
theorem claim_C10_witness :
    dGet (add_ids c10WitnessOut "e/i/f.jpg") "custom_key"
      = dGet c10WitnessIn "custom_key" :=
  claim_C10_amended.2 c10WitnessIn c10WitnessOut "e/i/f.jpg" "custom_key"
    rfl (by decide) (by decide) (by decide)

/-- C9: for every pair of records and every multi-value field, the
case-folded value set of the field in `merge(A,B)` equals that of
`merge(B,A)`: the dedup loops keep the first occurrence per
case-folded key, so order and surviving casing may differ between the
two directions but the key set only depends on the set of keys of the
concatenated input, which is symmetric.  (No canonicity hypotheses are
needed beyond both merges succeeding.) -/
theorem claim_C9_merge_commutative :
    ∀ d1 d2 M M',
      merge_extracted_data d1 d2 = .ok M →
      merge_extracted_data d2 d1 = .ok M' →
      ∀ f ∈ (["company_name", "person_name", "contact_numbers",
        "email_addresses", "services", "website"] : List String),
      ∀ s, s ∈ lowerValues M f ↔ s ∈ lowerValues M' f := by
  intro d1 d2 M M' hM hM' f hf s
  obtain ⟨c1, c2, contact, email, services, website, social,
    h1, h2, h3, h4, h5, h6, h7, rfl⟩ := merge_ok_inv d1 d2 M hM
  obtain ⟨c1', c2', contact', email', services', website', social',
    h1', h2', h3', h4', h5', h6', h7', rfl⟩ := merge_ok_inv d2 d1 M' hM'
  rw [h2] at h1'
  injection h1' with hc1'
  rw [h1] at h2'
  injection h2' with hc2'
  subst hc1'
  subst hc2'
  simp only [List.mem_cons, List.not_mem_nil, or_false] at hf
  rcases hf with rfl | rfl | rfl | rfl | rfl | rfl
  · have hstrip12 : ∀ t ∈ c1 ++ c2, pyStrip t = t := by
      intro t ht
      rcases List.mem_append.mp ht with h | h
      · exact mergeCompanySide_stripped _ _ _ h1 t h
      · exact mergeCompanySide_stripped _ _ _ h2 t h
    have hstrip21 : ∀ t ∈ c2 ++ c1, pyStrip t = t := by
      intro t ht
      rcases List.mem_append.mp ht with h | h
      · exact mergeCompanySide_stripped _ _ _ h2 t h
      · exact mergeCompanySide_stripped _ _ _ h1 t h
    simp only [lowerValues]
    simp only [dGet, String.reduceEq, reduceIte]
    rw [lowerValues_company_val (c1 ++ c2) hstrip12 s,
      lowerValues_company_val (c2 ++ c1) hstrip21 s]
    simp only [List.map_append, List.mem_append]
    tauto
  · have hstrip12 : ∀ t ∈ normList (dGet d1 "person_name")
        ++ normList (dGet d2 "person_name"), pyStrip t = t := by
      intro t ht
      rcases List.mem_append.mp ht with h | h
      · exact normList_stripped _ t h
      · exact normList_stripped _ t h
    have hstrip21 : ∀ t ∈ normList (dGet d2 "person_name")
        ++ normList (dGet d1 "person_name"), pyStrip t = t := by
      intro t ht
      rcases List.mem_append.mp ht with h | h
      · exact normList_stripped _ t h
      · exact normList_stripped _ t h
    simp only [lowerValues]
    simp only [dGet, String.reduceEq, reduceIte]
    rw [lowerValues_company_val _ hstrip12 s, lowerValues_company_val _ hstrip21 s]
    simp only [List.map_append, List.mem_append]
    tauto
  · obtain ⟨u, hu, hxeq⟩ := mergeArrays_ok_inv _ _ _ h3
    obtain ⟨u', hu', hxeq'⟩ := mergeArrays_ok_inv _ _ _ h3'
    simp only [lowerValues]
    simp only [dGet, String.reduceEq, reduceIte]
    rw [hxeq, hxeq', lowerValues_array_val _ u hu s,
      lowerValues_array_val _ u' hu' s, mem_lowerStrs_append_comm]
  · obtain ⟨u, hu, hxeq⟩ := mergeArrays_ok_inv _ _ _ h4
    obtain ⟨u', hu', hxeq'⟩ := mergeArrays_ok_inv _ _ _ h4'
    simp only [lowerValues]
    simp only [dGet, String.reduceEq, reduceIte]
    rw [hxeq, hxeq', lowerValues_array_val _ u hu s,
      lowerValues_array_val _ u' hu' s, mem_lowerStrs_append_comm]
  · obtain ⟨u, hu, hxeq⟩ := mergeArrays_ok_inv _ _ _ h5
    obtain ⟨u', hu', hxeq'⟩ := mergeArrays_ok_inv _ _ _ h5'
    simp only [lowerValues]
    simp only [dGet, String.reduceEq, reduceIte]
    rw [hxeq, hxeq', lowerValues_array_val _ u hu s,
      lowerValues_array_val _ u' hu' s, mem_lowerStrs_append_comm]
  · obtain ⟨u, hu, hxeq⟩ := mergeArrays_ok_inv _ _ _ h6
    obtain ⟨u', hu', hxeq'⟩ := mergeArrays_ok_inv _ _ _ h6'
    simp only [lowerValues]
    simp only [dGet, String.reduceEq, reduceIte]
    rw [hxeq, hxeq', lowerValues_array_val _ u hu s,
      lowerValues_array_val _ u' hu' s, mem_lowerStrs_append_comm]

/-- Left record for the C9 witness. -/
def c9Left : Dict := companyOnlyRec (.list [.str "Acme Corp"])

/-- Right record for the C9 witness. -/
def c9Right : Dict := companyOnlyRec (.list [.str "Globex Inc"])

/-- `merge(left, right)` for the C9 witness. -/
def c9MergedLR : Dict :=
  (merge_extracted_data c9Left c9Right).toOption.getD []

/-- `merge(right, left)` for the C9 witness. -/
def c9MergedRL : Dict :=
  (merge_extracted_data c9Right c9Left).toOption.getD []

/-- Witness for C9 at the spec's own example pair. -/
theorem claim_C9_witness :
    ("acme corp" ∈ lowerValues c9MergedLR "company_name") ↔
      ("acme corp" ∈ lowerValues c9MergedRL "company_name") :=
  claim_C9_merge_commutative c9Left c9Right c9MergedLR c9MergedRL rfl rfl
    "company_name" (by simp) "acme corp"

/-- C1, counterexample: the claim says merging two records with
disjoint company-name sets emits an advisory signal carrying the two
name lists.  Neither `merge_extracted_data` nor
`process_extraction_request` computes any company-mismatch signal: on
the spec's own example (left `["Acme Corp"]`, right `["Globex Inc"]`)
the merged `company_name` is the union, the record is non-empty, and
the only warning channel (`extraction_warning`, the emptiness
advisory of app.py lines 337-339) carries nothing. -/
theorem claim_C1_counterexample :
    (merge_extracted_data (companyOnlyRec (.list [.str "Acme Corp"]))
        (companyOnlyRec (.list [.str "Globex Inc"]))).map
      (fun M => (dGet M "company_name", extraction_warning M)) =
      .ok (.list [.str "Acme Corp", .str "Globex Inc"], Option.none) := rfl

/-- C1, amended: for records whose company names are single trimmed
non-empty entries that differ case-insensitively, merging yields the
union `[left, right]` in `company_name` — but NO advisory signal is
emitted: no company-name agreement check exists in the code, and the
only caller-visible warning (the emptiness advisory) stays empty
because the merged record carries content. -/
theorem claim_C1_amended :
    ∀ a b : String, pyStrip a = a → a ≠ "" → pyStrip b = b → b ≠ "" →
      pyLower a ≠ pyLower b →
      (merge_extracted_data (companyOnlyRec (.list [.str a]))
          (companyOnlyRec (.list [.str b]))).map
        (fun M => (dGet M "company_name", extraction_warning M)) =
        .ok (.list [.str a, .str b], Option.none) := by
  intro a b ha ha0 hb hb0 hne
  have hsingle : ∀ t : String, t ≠ "" → pyStrip t = t →
      mergeCompanySide (.list [.str t]) .none = .ok [t] := by
    intro t hne0 hstr
    unfold mergeCompanySide
    rw [if_neg (by simp [truthy])]
    have hnl : normList (.list [.str t]) = [t] := by
      simp [normList, truthy, hne0, pyStr, hstr]
    rw [hnl]
    rfl
  have hka : lowerStrip a = pyLower a := pyLower_pyStrip_of_stripped ha
  have hkb : lowerStrip b = pyLower b := pyLower_pyStrip_of_stripped hb
  have hna : pyLower a ≠ "" := fun h => ha0 (pyLower_eq_empty.mp h)
  have hnb : pyLower b ≠ "" := fun h => hb0 (pyLower_eq_empty.mp h)
  have hdedup : dedupByKey lowerStrip [] [a, b] = [a, b] := by
    rw [dedupByKey, if_pos ⟨by rw [hka]; exact hna, List.not_mem_nil _⟩,
      hka, dedupByKey,
      if_pos ⟨by rw [hkb]; exact hnb, by
        rw [hkb]
        simp only [List.mem_singleton]
        exact Ne.symm hne⟩,
      dedupByKey]
  have hm1 : mergeCompanySide
      (dGet (companyOnlyRec (.list [.str a])) "company_name")
      (dGet (companyOnlyRec (.list [.str a])) "company_quote") = .ok [a] := by
    have e1 : dGet (companyOnlyRec (.list [.str a])) "company_name"
        = .list [.str a] := rfl
    have e2 : dGet (companyOnlyRec (.list [.str a])) "company_quote"
        = .none := rfl
    rw [e1, e2]
    exact hsingle a ha0 ha
  have hm2 : mergeCompanySide
      (dGet (companyOnlyRec (.list [.str b])) "company_name")
      (dGet (companyOnlyRec (.list [.str b])) "company_quote") = .ok [b] := by
    have e1 : dGet (companyOnlyRec (.list [.str b])) "company_name"
        = .list [.str b] := rfl
    have e2 : dGet (companyOnlyRec (.list [.str b])) "company_quote"
        = .none := rfl
    rw [e1, e2]
    exact hsingle b hb0 hb
  have hmerge : merge_extracted_data (companyOnlyRec (.list [.str a]))
      (companyOnlyRec (.list [.str b])) = .ok
      [("company_name", .list [.str a, .str b]),
       ("company_quote", .none),
       ("person_name", .none),
       ("address", .none),
       ("category", .none),
       ("contact_numbers", .none),
       ("email_addresses", .none),
       ("services", .none),
       ("website", .none),
       ("social_media_profiles", .dict [("facebook", .none),
         ("instagram", .none), ("linkedin", .none), ("twitter", .none),
         ("youtube", .none), ("other", .list [])])] := by
    unfold merge_extracted_data
    rw [hm1, hm2]
    simp only [Bind.bind, Except.bind]
    rw [show ([a] ++ [b] : List String) = [a, b] from rfl, hdedup]
    rfl
  rw [hmerge]
  have hwarn : extraction_warning
      [("company_name", PyVal.list [.str a, .str b]),
       ("company_quote", .none),
       ("person_name", .none),
       ("address", .none),
       ("category", .none),
       ("contact_numbers", .none),
       ("email_addresses", .none),
       ("services", .none),
       ("website", .none),
       ("social_media_profiles", .dict [("facebook", .none),
         ("instagram", .none), ("linkedin", .none), ("twitter", .none),
         ("youtube", .none), ("other", .list [])])] = Option.none := by
    unfold extraction_warning is_empty_extraction
    have hcontent : has_content (PyVal.list [.str a, .str b]) = true := by
      simp [has_content, hasContentList, ha, ha0]
    simp [dGet, hcontent]
  simp only [Except.map]
  rw [hwarn]
  rfl

/-- Witness for C1's amended theorem at the spec's example names. -/
theorem claim_C1_witness :
    (merge_extracted_data (companyOnlyRec (.list [.str "Acme Corp"]))
        (companyOnlyRec (.list [.str "Globex Inc"]))).map
      (fun M => (dGet M "company_name", extraction_warning M)) =
      .ok (.list [.str "Acme Corp", .str "Globex Inc"], Option.none) :=
  claim_C1_amended "Acme Corp" "Globex Inc" (by decide) (by decide)
    (by decide) (by decide) (by decide)

end Card
